import Mathlib

/-!
Verification development for the motif form-navigation engine.

The navigation state machine (`NavigationManager`, file src/unnamed/part_000)
is translated here as pure functions over an explicit registry state.  The
five level registries (card / set / group / field / input stores) are not part
of the given sources; their operations are modelled from the spec's §4.1
contract and marked as such in their doc comments.  The button logic comes
from src/src/form/managers/button-manager.ts.
-/

set_option maxRecDepth 4000

namespace Motif

/-- Hierarchy levels of the form tree (card → set → group → field). -/
inductive Level : Type
  | card
  | set
  | group
  | field
deriving DecidableEq, Repr

/-- Direction used by the four resolvers (`byField` … `byCard`). -/
inductive Dir : Type
  | prev
  | next
deriving DecidableEq, Repr

/-- Direction accepted by `handleMove`. -/
inductive MoveDir : Type
  | prev
  | next
  | submit
deriving DecidableEq, Repr

/-- `parentHierarchy`: resolved indices (possibly absent) into each ancestor
level, established at discovery time; the code guards each with
`!== null && >= 0`, hence `Option Int`. -/
structure ParentHierarchy where
  cardIndex : Option Int
  setIndex : Option Int
  groupIndex : Option Int
deriving DecidableEq, Repr

/-- An item of one of the Card/Set/Group/Field registries: a stable id,
activation metadata and the stored ancestor indices. -/
structure Item where
  id : Nat
  active : Bool
  current : Bool
  parentHierarchy : ParentHierarchy
deriving DecidableEq, Repr

/-- A leaf Input item: parent field reference plus the externally supplied
`isIncluded` / `isValid` flags. -/
structure InputItem where
  id : Nat
  fieldId : Nat
  active : Bool
  current : Bool
  isIncluded : Bool
  isValid : Bool
deriving DecidableEq, Repr

/-- The five registries mutated by the navigation engine. -/
structure Registries where
  cards : List Item
  sets : List Item
  groups : List Item
  fields : List Item
  inputs : List InputItem
deriving DecidableEq, Repr

/-- Form state seen by `handleMove`: the registries plus the configured
behavior string and the global navigation-enabled flag. -/
structure FormState where
  regs : Registries
  behavior : String
  navigationEnabled : Bool
deriving DecidableEq, Repr

/-- An element handed to `setChildrenActive` / `updateHierarchyData`:
a registry item together with its level (`element.type` in the code). -/
structure FormElement where
  type : Level
  item : Item
deriving DecidableEq, Repr

/-- Typed fatal errors thrown by `handleMove` (`createError` in the code). -/
inductive NavError : Type
  | invalidBehavior (behavior : String)
  | nullTarget (level : Level) (targetPosition : Nat) (direction : Dir)
deriving DecidableEq, Repr

/-- Observable emissions of one `handleMove` call: the denied event and the
single batched state commit (`setStates`). -/
inductive Ev : Type
  | denied (reason : String)
  | commit
deriving DecidableEq, Repr

/-! ## Registry operations, modelled from the spec's §4.1 contract -/

/-- Modelled from the spec: `clearActiveAndCurrent()` sets every item's
`active`/`current` to false. -/
def clearAC (items : List Item) : List Item :=
  items.map (fun it => { it with active := false, current := false })

/-- Modelled from the spec: `clearActiveAndCurrent()` on the Input registry. -/
def clearACInputs (inputs : List InputItem) : List InputItem :=
  inputs.map (fun i => { i with active := false, current := false })

/-- Modelled from the spec: `setActive(id)` sets the flag on exactly one item
(ids are unique within a level). -/
def setActiveId (items : List Item) (pid : Nat) : List Item :=
  items.map (fun it => if it.id = pid then { it with active := true } else it)

/-- Modelled from the spec: `setCurrent(id)`. -/
def setCurrentId (items : List Item) (pid : Nat) : List Item :=
  items.map (fun it => if it.id = pid then { it with current := true } else it)

/-- Modelled from the spec: `setActive(index)` for a numeric ordinal. -/
def setActiveIdx : List Item → Nat → List Item
  | [], _ => []
  | it :: rest, 0 => { it with active := true } :: rest
  | it :: rest, n + 1 => it :: setActiveIdx rest n

/-- Modelled from the spec: `setCurrent(index)` for a numeric ordinal. -/
def setCurrentIdx : List Item → Nat → List Item
  | [], _ => []
  | it :: rest, 0 => { it with current := true } :: rest
  | it :: rest, n + 1 => it :: setCurrentIdx rest n

/-- Modelled from the spec: `setActiveByParent` marks every child satisfying
the resolution predicate active; while the boolean flag is set, the first such
child (by index) is also marked current. -/
def setActiveByParentP (pred : Item → Bool) : Bool → List Item → List Item
  | _, [] => []
  | firstIsCurrent, it :: rest =>
    if pred it then
      { it with active := true, current := it.current || firstIsCurrent } ::
        setActiveByParentP pred false rest
    else
      it :: setActiveByParentP pred firstIsCurrent rest

/-- Modelled from the spec: `setActiveByParent(fieldId, 'field', ...)` on the
Input registry. -/
def setActiveByParentInputs (fid : Nat) : Bool → List InputItem → List InputItem
  | _, [] => []
  | firstIsCurrent, i :: rest =>
    if i.fieldId = fid then
      { i with active := true, current := i.current || firstIsCurrent } ::
        setActiveByParentInputs fid false rest
    else
      i :: setActiveByParentInputs fid firstIsCurrent rest

/-- Modelled from the spec: index of the `current` item of a registry. -/
def currentIdx (items : List Item) : Option Nat :=
  items.findIdx? (fun it => it.current)

/-- Modelled from the spec: `getNextPosition()` returns the ordinal index of
the item after the current one, or none at the boundary — never wraps. -/
def getNextPosition (items : List Item) : Option Nat :=
  match currentIdx items with
  | some i => if i + 1 < items.length then some (i + 1) else none
  | none => none

/-- Modelled from the spec: `getPrevPosition()`. -/
def getPrevPosition (items : List Item) : Option Nat :=
  match currentIdx items with
  | some i => if 0 < i then some (i - 1) else none
  | none => none

/-- Position query selected by the direction argument of a resolver. -/
def dirPos (items : List Item) : Dir → Option Nat
  | Dir.prev => getPrevPosition items
  | Dir.next => getNextPosition items

/-- Modelled from the spec: resolution of a stored ancestor index against the
parent registry — the child belongs to `pid` iff its stored index is present,
non-negative, and names the parent item with that id. -/
def resolvesTo (parents : List Item) (idx : Option Int) (pid : Nat) : Bool :=
  match idx with
  | some i =>
    decide (0 ≤ i) &&
      (match parents[i.toNat]? with
       | some p => p.id = pid
       | none => false)
  | none => false

/-- The stored ancestor index of an item for a given parent level. -/
def ancestorIdx (it : Item) : Level → Option Int
  | Level.card => it.parentHierarchy.cardIndex
  | Level.set => it.parentHierarchy.setIndex
  | Level.group => it.parentHierarchy.groupIndex
  | Level.field => none

/-- The registry holding the items of a level. -/
def registryOf (st : Registries) : Level → List Item
  | Level.card => st.cards
  | Level.set => st.sets
  | Level.group => st.groups
  | Level.field => st.fields

/-- The `setActiveByParent` membership test: child `c` resolves to parent id
`pid` at parent level `t`. -/
def childPred (st : Registries) (t : Level) (pid : Nat) (c : Item) : Bool :=
  resolvesTo (registryOf st t) (ancestorIdx c t) pid

/-- Modelled from the spec: `getActive()` returns the active run in document
order. -/
def getActiveFields (items : List Item) : List Item :=
  items.filter (fun f => f.active)

/-! ## NavigationManager, translated from src/unnamed/part_000 -/

/-- `validateCurrent`: every active+included input is valid. -/
def validateCurrent (st : Registries) : Bool :=
  (st.inputs.filter (fun i => i.active && i.isIncluded)).all (fun i => i.isValid)

/-- `clearHierarchyData`: clears active/current at the given level and every
level below it (fields are always cleared). -/
def clearHierarchyData (st : Registries) (t : Level) : Registries :=
  let st1 := if t = Level.card then { st with cards := clearAC st.cards } else st
  let st2 :=
    if t = Level.card ∨ t = Level.set then { st1 with sets := clearAC st1.sets } else st1
  let st3 :=
    if t = Level.card ∨ t = Level.set ∨ t = Level.group then
      { st2 with groups := clearAC st2.groups }
    else st2
  { st3 with fields := clearAC st3.fields }

/-- The input re-activation loop of `setChildrenActive`: iterates over the
active fields, passing `firstIsCurrent` exactly on the first iteration
(the code's `firstIsCurrent: index === 0`). -/
def activateInputsLoop : Bool → List Item → List InputItem → List InputItem
  | _, [], inputs => inputs
  | firstIsCurrent, f :: rest, inputs =>
    activateInputsLoop false rest (setActiveByParentInputs f.id firstIsCurrent inputs)

/-- `setChildrenActive`: activates the descendants of the element, first child
current at each level, then clears the Input registry and re-activates the
inputs of the active fields. -/
def setChildrenActive (st : Registries) (e : FormElement) : Registries :=
  let st1 :=
    if e.type = Level.card then
      { st with sets := setActiveByParentP (childPred st Level.card e.item.id) true st.sets }
    else st
  let st2 :=
    if e.type = Level.card ∨ e.type = Level.set then
      { st1 with groups := setActiveByParentP (childPred st1 e.type e.item.id) true st1.groups }
    else st1
  let st3 :=
    if e.type = Level.card ∨ e.type = Level.set ∨ e.type = Level.group then
      { st2 with fields := setActiveByParentP (childPred st2 e.type e.item.id) true st2.fields }
    else st2
  let inputs0 := clearACInputs st3.inputs
  let activeFields := getActiveFields st3.fields
  { st3 with inputs := activateInputsLoop true activeFields inputs0 }

/-- `updateHierarchyData`: upward hierarchy sync from the element's stored
`parentHierarchy`, guarded per ancestor level by `!== null && >= 0`. -/
def updateHierarchyData (st : Registries) (e : FormElement) : Registries :=
  let st1 :=
    if e.type = Level.field then
      match e.item.parentHierarchy.groupIndex with
      | some gi =>
        if 0 ≤ gi then
          { st with
            groups := setCurrentIdx (setActiveIdx (clearAC st.groups) gi.toNat) gi.toNat }
        else st
      | none => st
    else st
  let st2 :=
    if e.type = Level.field ∨ e.type = Level.group then
      match e.item.parentHierarchy.setIndex with
      | some si =>
        if 0 ≤ si then
          { st1 with
            sets := setCurrentIdx (setActiveIdx (clearAC st1.sets) si.toNat) si.toNat }
        else st1
      | none => st1
    else st1
  match e.item.parentHierarchy.cardIndex with
  | some ci =>
    if 0 ≤ ci then
      { st2 with
        cards := setCurrentIdx (setActiveIdx (clearAC st2.cards) ci.toNat) ci.toNat }
    else st2
  | none => st2

/-- `byCard`: resolve a move at card level; at the boundary the move is
terminal (no mutation, no commit). -/
def byCard (st : Registries) (d : Dir) : Except NavError (Registries × Option Level) :=
  match dirPos st.cards d with
  | none => Except.ok (st, none)
  | some targetPosition =>
    match st.cards[targetPosition]? with
    | none => Except.error (NavError.nullTarget Level.card targetPosition d)
    | some targetCard =>
      let st1 := clearHierarchyData st Level.card
      let st2 :=
        { st1 with cards := setCurrentId (setActiveId st1.cards targetCard.id) targetCard.id }
      let st3 := setChildrenActive st2 ⟨Level.card, targetCard⟩
      Except.ok (st3, some Level.card)

/-- `bySet`: resolve at set level, falling through to `byCard` at the
boundary. -/
def bySet (st : Registries) (d : Dir) : Except NavError (Registries × Option Level) :=
  match dirPos st.sets d with
  | none => byCard st d
  | some targetPosition =>
    match st.sets[targetPosition]? with
    | none => Except.error (NavError.nullTarget Level.set targetPosition d)
    | some targetSet =>
      let st1 := clearHierarchyData st Level.set
      let st2 :=
        { st1 with sets := setCurrentId (setActiveId st1.sets targetSet.id) targetSet.id }
      let st3 := setChildrenActive st2 ⟨Level.set, targetSet⟩
      let st4 := updateHierarchyData st3 ⟨Level.set, targetSet⟩
      Except.ok (st4, some Level.set)

/-- `byGroup`: resolve at group level, falling through to `bySet` at the
boundary. -/
def byGroup (st : Registries) (d : Dir) : Except NavError (Registries × Option Level) :=
  match dirPos st.groups d with
  | none => bySet st d
  | some targetPosition =>
    match st.groups[targetPosition]? with
    | none => Except.error (NavError.nullTarget Level.group targetPosition d)
    | some targetGroup =>
      let st1 := clearHierarchyData st Level.group
      let st2 :=
        { st1 with groups := setCurrentId (setActiveId st1.groups targetGroup.id) targetGroup.id }
      let st3 := setChildrenActive st2 ⟨Level.group, targetGroup⟩
      let st4 := updateHierarchyData st3 ⟨Level.group, targetGroup⟩
      Except.ok (st4, some Level.group)

/-- `byField`: resolve at field level, falling through to `byGroup` at the
boundary.  Note: the code clears the field level but never marks the target
field itself active or current. -/
def byField (st : Registries) (d : Dir) : Except NavError (Registries × Option Level) :=
  match dirPos st.fields d with
  | none => byGroup st d
  | some targetPosition =>
    match st.fields[targetPosition]? with
    | none => Except.error (NavError.nullTarget Level.field targetPosition d)
    | some targetField =>
      let st1 := clearHierarchyData st Level.field
      let st2 := setChildrenActive st1 ⟨Level.field, targetField⟩
      let st3 := updateHierarchyData st2 ⟨Level.field, targetField⟩
      Except.ok (st3, some Level.field)

/-- Packages a resolver result as `handleMove`'s observable outcome: the
batched state commit happens exactly when a level was resolved. -/
def wrapResult : Except NavError (Registries × Option Level) →
    Except NavError (Registries × List Ev)
  | Except.error e => Except.error e
  | Except.ok (r, some _) => Except.ok (r, [Ev.commit])
  | Except.ok (r, none) => Except.ok (r, [])

/-- The `direction` string narrowed to the resolver direction (`submit` is
routed before this is used, so it maps to `next`). -/
def toDir : MoveDir → Dir
  | MoveDir.prev => Dir.prev
  | _ => Dir.next

/-- The `canMove` guard computed at the top of `handleMove`. -/
def canMove (st : FormState) (d : MoveDir) : Bool :=
  (d == MoveDir.next && validateCurrent st.regs) ||
    (d == MoveDir.submit && validateCurrent st.regs) ||
    (d == MoveDir.prev)

/-- `handleMove`: the navigation entry point — enabled guard, validation gate
for `next`/`submit`, submit short-circuit to `byCard('next')`, then the
behavior dispatch (unrecognized behavior throws). -/
def handleMove (st : FormState) (d : MoveDir) : Except NavError (Registries × List Ev) :=
  if st.navigationEnabled = false then Except.ok (st.regs, [])
  else
    if canMove st d = false then Except.ok (st.regs, [Ev.denied "invalid"])
    else if d == MoveDir.submit then wrapResult (byCard st.regs Dir.next)
    else
      match st.behavior with
      | "byField" => wrapResult (byField st.regs (toDir d))
      | "byGroup" => wrapResult (byGroup st.regs (toDir d))
      | "bySet" => wrapResult (bySet st.regs (toDir d))
      | "byCard" => wrapResult (byCard st.regs (toDir d))
      | b => Except.error (NavError.invalidBehavior b)

/-! ## ButtonManager, translated from button-manager.ts -/

/-- Button control types. -/
inductive BType : Type
  | prev
  | next
  | submit
deriving DecidableEq, Repr

/-- A navigation control's observable state. -/
structure ButtonItem where
  active : Bool
  visible : Bool
  disabled : Bool
  type : BType
deriving DecidableEq, Repr

/-- `getActive`: the buttons that are both active and visible. -/
def getActiveButtons (btns : List ButtonItem) : List ButtonItem :=
  btns.filter (fun b => b.active && b.visible)

/-- `determineNextOrSubmit`: an active `next` control wins, else an active
`submit` control, else the `next` fallback. -/
def determineNextOrSubmit (btns : List ButtonItem) : BType :=
  let active := getActiveButtons btns
  match active.find? (fun b => b.type == BType.next) with
  | some _ => BType.next
  | none =>
    match active.find? (fun b => b.type == BType.submit) with
    | some _ => BType.submit
    | none => BType.next

/-- What the Enter-key handler emits once it decides to act. -/
inductive EnterEmit : Type
  | navigationRequestNext
  | submitRequested
deriving DecidableEq, Repr

/-- The emission decision of `setupEnterKeyListener`'s handler: `next` from
`determineNextOrSubmit` yields a navigation request, anything else a submit
request. -/
def enterKeyDecision (btns : List ButtonItem) : EnterEmit :=
  if determineNextOrSubmit btns = BType.next then EnterEmit.navigationRequestNext
  else EnterEmit.submitRequested

/-! ## Invariants -/

/-- Per-level exclusivity: at most one current item, and current implies
active. -/
def levelInv (items : List Item) : Prop :=
  items.countP (fun it => it.current) ≤ 1 ∧ ∀ it ∈ items, it.current = true → it.active = true

/-- Exclusivity for the Input registry. -/
def levelInvInputs (inputs : List InputItem) : Prop :=
  inputs.countP (fun i => i.current) ≤ 1 ∧ ∀ i ∈ inputs, i.current = true → i.active = true

/-- Exclusivity across all five registries. -/
def regsInv (st : Registries) : Prop :=
  levelInv st.cards ∧ levelInv st.sets ∧ levelInv st.groups ∧ levelInv st.fields ∧
    levelInvInputs st.inputs

/-- Ids unique within a level (§3 of the spec). -/
def idsNodup (items : List Item) : Prop :=
  (items.map (fun it => it.id)).Nodup

/-- Ids unique at every level. -/
def regsIdsNodup (st : Registries) : Prop :=
  idsNodup st.cards ∧ idsNodup st.sets ∧ idsNodup st.groups ∧ idsNodup st.fields

/-- No item of the level is current. -/
def allNotCurrent (items : List Item) : Prop :=
  ∀ it ∈ items, it.current = false

/-- No input is current. -/
def allNotCurrentInputs (inputs : List InputItem) : Prop :=
  ∀ i ∈ inputs, i.current = false

/-! ## Concrete states for witnesses and counterexamples -/

/-- Empty hierarchy pointers. -/
def phNone : ParentHierarchy := ⟨none, none, none⟩

/-- Hierarchy pointer naming card index 1. -/
def phCard1 : ParentHierarchy := ⟨some 1, none, none⟩

/-- Empty registries. -/
def regsEmpty : Registries := ⟨[], [], [], [], []⟩

/-- Two cards; set 5, group 7, fields 10/11 and inputs 20/21 all attached to
the second card (index 1, id 1).  Card 0 is current. -/
def regsTwoCards : Registries :=
  { cards := [⟨0, true, true, phNone⟩, ⟨1, false, false, phNone⟩]
  , sets := [⟨5, false, false, phCard1⟩]
  , groups := [⟨7, false, false, phCard1⟩]
  , fields := [⟨10, false, false, phCard1⟩, ⟨11, false, false, phCard1⟩]
  , inputs := [⟨20, 10, false, false, true, true⟩, ⟨21, 11, false, false, true, true⟩] }

/-- The registry state produced by a card-level `next` on `regsTwoCards`. -/
def regsTwoCardsRes : Registries :=
  { cards := [⟨0, false, false, phNone⟩, ⟨1, true, true, phNone⟩]
  , sets := [⟨5, true, true, phCard1⟩]
  , groups := [⟨7, true, true, phCard1⟩]
  , fields := [⟨10, true, true, phCard1⟩, ⟨11, true, false, phCard1⟩]
  , inputs := [⟨20, 10, true, true, true, true⟩, ⟨21, 11, true, false, true, true⟩] }

/-- Field-mode state: one card/set/group, two fields under them, the first
field current, one input per field. -/
def regsFieldMode : Registries :=
  { cards := [⟨0, true, true, phNone⟩]
  , sets := [⟨5, true, true, ⟨some 0, none, none⟩⟩]
  , groups := [⟨7, true, true, ⟨some 0, some 0, none⟩⟩]
  , fields := [⟨10, true, true, ⟨some 0, some 0, some 0⟩⟩,
      ⟨11, false, false, ⟨some 0, some 0, some 0⟩⟩]
  , inputs := [⟨20, 10, true, true, true, true⟩, ⟨21, 11, false, false, true, true⟩] }

/-- A state whose single input is active, included and invalid. -/
def regsInvalidInput : Registries :=
  { regsTwoCards with inputs := [⟨20, 10, true, true, true, false⟩] }

/-- One active+visible `next` control plus an inactive `submit` control. -/
def btnsNextActive : List ButtonItem :=
  [⟨true, true, false, BType.next⟩, ⟨false, true, true, BType.submit⟩]

/-! ## Lemmas about the modelled registry operations -/

theorem clearAC_getElem (l : List Item) (k : Nat) :
    (clearAC l)[k]? = (l[k]?).map (fun it => { it with active := false, current := false }) :=
  List.getElem?_map ..

theorem mem_clearAC {it : Item} {l : List Item} (h : it ∈ clearAC l) :
    it.active = false ∧ it.current = false := by
  simp only [clearAC, List.mem_map] at h
  obtain ⟨a, -, rfl⟩ := h
  exact ⟨rfl, rfl⟩

theorem allNotCurrent_clearAC (l : List Item) : allNotCurrent (clearAC l) :=
  fun _ h => (mem_clearAC h).2

theorem ids_clearAC (l : List Item) :
    (clearAC l).map (fun it => it.id) = l.map (fun it => it.id) := by
  simp [clearAC, List.map_map]

theorem idsNodup_clearAC {l : List Item} (h : idsNodup l) : idsNodup (clearAC l) := by
  unfold idsNodup at h ⊢
  rw [ids_clearAC]
  exact h

theorem countP_current_eq_zero {l : List Item} (h : allNotCurrent l) :
    l.countP (fun it => it.current) = 0 :=
  List.countP_eq_zero.mpr (fun a ha => by simp [h a ha])

theorem levelInv_of_allNotCurrent {l : List Item} (h : allNotCurrent l) : levelInv l :=
  ⟨by rw [countP_current_eq_zero h]; exact Nat.zero_le 1,
   fun it hm hc => absurd hc (by simp [h it hm])⟩

theorem setABP_false_eq_map (pred : Item → Bool) (l : List Item) :
    setActiveByParentP pred false l =
      l.map (fun it => if pred it then { it with active := true } else it) := by
  induction l with
  | nil => rfl
  | cons x rest ih => cases hp : pred x <;> simp [setActiveByParentP, hp, ih]

theorem allNotCurrent_setABP_false {l : List Item} (pred : Item → Bool)
    (h : allNotCurrent l) : allNotCurrent (setActiveByParentP pred false l) := by
  rw [setABP_false_eq_map]
  intro it hit
  simp only [List.mem_map] at hit
  obtain ⟨a, ha, rfl⟩ := hit
  by_cases hp : pred a = true
  · simp [hp, h a ha]
  · simp [hp, h a ha]

theorem levelInv_setABP (pred : Item → Bool) :
    ∀ (b : Bool) (l : List Item), allNotCurrent l → levelInv (setActiveByParentP pred b l) := by
  intro b l
  induction l generalizing b with
  | nil => intro _; simp [setActiveByParentP, levelInv]
  | cons x rest ih =>
    intro h
    have hx : x.current = false := h x (by simp)
    have hr : allNotCurrent rest := fun it hit => h it (List.mem_cons_of_mem x hit)
    cases hp : pred x with
    | true =>
      have hnc := allNotCurrent_setABP_false pred hr
      refine ⟨?_, ?_⟩
      · simp only [setActiveByParentP, hp, if_true, List.countP_cons,
          countP_current_eq_zero hnc]
        cases b <;> simp [hx]
      · intro it hit hc
        simp only [setActiveByParentP, hp, if_true, List.mem_cons] at hit
        cases hit with
        | inl he => subst he; rfl
        | inr hm => exact absurd hc (by simp [hnc it hm])
    | false =>
      have ihb := ih b hr
      refine ⟨?_, ?_⟩
      · simp only [setActiveByParentP, hp, Bool.false_eq_true, if_false, List.countP_cons, hx]
        simpa using ihb.1
      · intro it hit hc
        simp only [setActiveByParentP, hp, Bool.false_eq_true, if_false, List.mem_cons] at hit
        cases hit with
        | inl he => subst he; exact absurd hc (by simp [hx])
        | inr hm => exact ihb.2 it hm hc

theorem map_eq_self_of_forall {α : Type} (f : α → α) :
    ∀ l : List α, (∀ a ∈ l, f a = a) → l.map f = l
  | [], _ => rfl
  | a :: rest, h => by
    simp only [List.map_cons, h a (by simp),
      map_eq_self_of_forall f rest (fun b hb => h b (by simp [hb]))]

theorem setActiveIdx_getElem :
    ∀ (l : List Item) (n k : Nat),
      (setActiveIdx l n)[k]? =
        (l[k]?).map (fun it => if k = n then { it with active := true } else it)
  | [], _, _ => by simp [setActiveIdx]
  | x :: rest, 0, 0 => by simp [setActiveIdx]
  | x :: rest, 0, k + 1 => by
    simp only [setActiveIdx, List.getElem?_cons_succ]
    cases hrk : rest[k]? with
    | none => simp
    | some a => simp [Nat.succ_ne_zero]
  | x :: rest, n + 1, 0 => by simp [setActiveIdx, Nat.succ_ne_zero]
  | x :: rest, n + 1, k + 1 => by
    simp only [setActiveIdx, List.getElem?_cons_succ]
    rw [setActiveIdx_getElem rest n k]
    cases hrk : rest[k]? with
    | none => simp
    | some a =>
      by_cases h : k = n
      · simp [h]
      · have h2 : ¬(k + 1 = n + 1) := fun hh => h (by omega)
        simp [h, h2]

theorem setCurrentIdx_getElem :
    ∀ (l : List Item) (n k : Nat),
      (setCurrentIdx l n)[k]? =
        (l[k]?).map (fun it => if k = n then { it with current := true } else it)
  | [], _, _ => by simp [setCurrentIdx]
  | x :: rest, 0, 0 => by simp [setCurrentIdx]
  | x :: rest, 0, k + 1 => by
    simp only [setCurrentIdx, List.getElem?_cons_succ]
    cases hrk : rest[k]? with
    | none => simp
    | some a => simp [Nat.succ_ne_zero]
  | x :: rest, n + 1, 0 => by simp [setCurrentIdx, Nat.succ_ne_zero]
  | x :: rest, n + 1, k + 1 => by
    simp only [setCurrentIdx, List.getElem?_cons_succ]
    rw [setCurrentIdx_getElem rest n k]
    cases hrk : rest[k]? with
    | none => simp
    | some a =>
      by_cases h : k = n
      · simp [h]
      · have h2 : ¬(k + 1 = n + 1) := fun hh => h (by omega)
        simp [h, h2]

/-- The clear-then-set-both-at-index pattern of `updateHierarchyData`,
characterised per position. -/
theorem setPairIdx_getElem (l : List Item) (n k : Nat) :
    (setCurrentIdx (setActiveIdx (clearAC l) n) n)[k]? =
      (l[k]?).map (fun it =>
        { it with active := decide (k = n), current := decide (k = n) }) := by
  rw [setCurrentIdx_getElem, setActiveIdx_getElem, clearAC_getElem]
  cases hrk : l[k]? with
  | none => simp
  | some a =>
    by_cases h : k = n
    · simp [h]
    · simp [h]

theorem clearAC_cons (x : Item) (l : List Item) :
    clearAC (x :: l) = { x with active := false, current := false } :: clearAC l := rfl

theorem setActiveIdx_cons_zero (x : Item) (l : List Item) :
    setActiveIdx (x :: l) 0 = { x with active := true } :: l := rfl

theorem setActiveIdx_cons_succ (x : Item) (l : List Item) (n : Nat) :
    setActiveIdx (x :: l) (n + 1) = x :: setActiveIdx l n := rfl

theorem setCurrentIdx_cons_zero (x : Item) (l : List Item) :
    setCurrentIdx (x :: l) 0 = { x with current := true } :: l := rfl

theorem setCurrentIdx_cons_succ (x : Item) (l : List Item) (n : Nat) :
    setCurrentIdx (x :: l) (n + 1) = x :: setCurrentIdx l n := rfl

theorem countP_current_setPairIdx :
    ∀ (l : List Item) (n : Nat),
      (setCurrentIdx (setActiveIdx (clearAC l) n) n).countP (fun it => it.current) ≤ 1
  | [], n => by simp [clearAC, setActiveIdx, setCurrentIdx]
  | x :: rest, 0 => by
    rw [clearAC_cons, setActiveIdx_cons_zero, setCurrentIdx_cons_zero, List.countP_cons,
      countP_current_eq_zero (allNotCurrent_clearAC rest)]
    simp
  | x :: rest, n + 1 => by
    rw [clearAC_cons, setActiveIdx_cons_succ, setCurrentIdx_cons_succ, List.countP_cons]
    have ih := countP_current_setPairIdx rest n
    simpa using ih

theorem levelInv_setPairIdx (l : List Item) (n : Nat) :
    levelInv (setCurrentIdx (setActiveIdx (clearAC l) n) n) := by
  refine ⟨countP_current_setPairIdx l n, ?_⟩
  intro it hm hc
  obtain ⟨k, hk⟩ := List.mem_iff_getElem?.mp hm
  have hchar := setPairIdx_getElem l n k
  rw [hk] at hchar
  cases hl : l[k]? with
  | none => rw [hl] at hchar; simp at hchar
  | some a =>
    rw [hl] at hchar
    simp only [Option.map] at hchar
    injection hchar with h1
    subst h1
    simpa using hc

theorem setActiveId_getElem (l : List Item) (x : Nat) (k : Nat) :
    (setActiveId l x)[k]? =
      (l[k]?).map (fun it => if it.id = x then { it with active := true } else it) :=
  List.getElem?_map ..

theorem setCurrentId_getElem (l : List Item) (x : Nat) (k : Nat) :
    (setCurrentId l x)[k]? =
      (l[k]?).map (fun it => if it.id = x then { it with current := true } else it) :=
  List.getElem?_map ..

/-- Positions with the same id coincide when ids are unique. -/
theorem getElem?_id_inj {l : List Item} (hn : idsNodup l) {k p : Nat} {it c : Item}
    (hk : l[k]? = some it) (hp : l[p]? = some c) (hid : it.id = c.id) : k = p := by
  have hmk : (l.map (fun a => a.id))[k]? = some it.id := by
    rw [List.getElem?_map, hk]; rfl
  have hmp : (l.map (fun a => a.id))[p]? = some c.id := by
    rw [List.getElem?_map, hp]; rfl
  have hlen : k < (l.map (fun a => a.id)).length := (List.getElem?_eq_some.mp hmk).1
  exact List.getElem?_inj hlen hn (by rw [hmk, hmp, hid])

/-- The clear-free set-active-then-current-by-id pattern of the resolvers,
characterised per position when ids are unique. -/
theorem setPairId_getElem {l : List Item} (hn : idsNodup l) {p : Nat} {c : Item}
    (hc : l[p]? = some c) (k : Nat) :
    (setCurrentId (setActiveId l c.id) c.id)[k]? =
      (l[k]?).map (fun it =>
        if k = p then { it with active := true, current := true } else it) := by
  rw [setCurrentId_getElem, setActiveId_getElem, Option.map_map]
  cases hl : l[k]? with
  | none => simp
  | some a =>
    simp only [Option.map_some', Function.comp]
    by_cases hid : a.id = c.id
    · have hkp : k = p := getElem?_id_inj hn hl hc hid
      simp [hid, hkp]
    · have hkp : ¬(k = p) := by
        intro he
        subst he
        rw [hl] at hc
        injection hc with h2
        subst h2
        exact hid rfl
      simp [hid, hkp]

theorem countP_current_setActiveId (l : List Item) (x : Nat) :
    (setActiveId l x).countP (fun it => it.current) = l.countP (fun it => it.current) := by
  unfold setActiveId
  rw [List.countP_map]
  refine List.countP_congr ?_
  intro a _
  by_cases h : a.id = x <;> simp [Function.comp, h]

theorem allNotCurrent_setActiveId {l : List Item} (h : allNotCurrent l) (x : Nat) :
    allNotCurrent (setActiveId l x) := by
  intro it hit
  simp only [setActiveId, List.mem_map] at hit
  obtain ⟨a, ha, rfl⟩ := hit
  by_cases hid : a.id = x <;> simp [hid, h a ha]

theorem setActiveId_cons (a : Item) (l : List Item) (x : Nat) :
    setActiveId (a :: l) x =
      (if a.id = x then { a with active := true } else a) :: setActiveId l x := rfl

theorem setCurrentId_cons (a : Item) (l : List Item) (x : Nat) :
    setCurrentId (a :: l) x =
      (if a.id = x then { a with current := true } else a) :: setCurrentId l x := rfl

theorem levelInv_setPairId :
    ∀ (l : List Item) (x : Nat), allNotCurrent l → idsNodup l →
      levelInv (setCurrentId (setActiveId l x) x)
  | [], x, _, _ => by simp [setActiveId, setCurrentId, levelInv]
  | a :: rest, x, h, hn => by
    have ha : a.current = false := h a (by simp)
    have hr : allNotCurrent rest := fun it hit => h it (List.mem_cons_of_mem a hit)
    have hn2 : (a.id ∉ rest.map (fun it => it.id)) ∧ idsNodup rest := by
      unfold idsNodup at hn
      simpa [List.nodup_cons] using hn
    by_cases hid : a.id = x
    · have hrx : ∀ it ∈ rest, it.id ≠ x := by
        intro it hit he
        exact hn2.1 (by rw [hid, ← he]; exact List.mem_map_of_mem _ hit)
      have e1 : setActiveId rest x = rest :=
        map_eq_self_of_forall _ rest (fun b hb => by simp [hrx b hb])
      have e2 : setCurrentId rest x = rest :=
        map_eq_self_of_forall _ rest (fun b hb => by simp [hrx b hb])
      have e3 : setCurrentId (setActiveId (a :: rest) x) x =
          { a with active := true, current := true } :: rest := by
        rw [setActiveId_cons, if_pos hid, e1, setCurrentId_cons, e2,
          if_pos (show ({ a with active := true } : Item).id = x from hid)]
      rw [e3]
      constructor
      · rw [List.countP_cons, countP_current_eq_zero hr]
        simp
      · intro it hit hc
        rcases List.mem_cons.mp hit with he | hm
        · subst he; rfl
        · exact absurd hc (by simp [hr it hm])
    · have ih := levelInv_setPairId rest x hr hn2.2
      have e3 : setCurrentId (setActiveId (a :: rest) x) x =
          a :: setCurrentId (setActiveId rest x) x := by
        rw [setActiveId_cons, if_neg hid, setCurrentId_cons, if_neg hid]
      rw [e3]
      constructor
      · rw [List.countP_cons]
        simp only [ha]
        simpa using ih.1
      · intro it hit hc
        rcases List.mem_cons.mp hit with he | hm
        · subst he; exact absurd hc (by simp [ha])
        · exact ih.2 it hm hc

/-! ## Lemmas about the Input registry operations -/

theorem mem_clearACInputs {i : InputItem} {l : List InputItem} (h : i ∈ clearACInputs l) :
    i.active = false ∧ i.current = false := by
  simp only [clearACInputs, List.mem_map] at h
  obtain ⟨a, -, rfl⟩ := h
  exact ⟨rfl, rfl⟩

theorem allNotCurrentInputs_clearACInputs (l : List InputItem) :
    allNotCurrentInputs (clearACInputs l) :=
  fun _ h => (mem_clearACInputs h).2

theorem countP_current_inputs_eq_zero {l : List InputItem} (h : allNotCurrentInputs l) :
    l.countP (fun i => i.current) = 0 :=
  List.countP_eq_zero.mpr (fun a ha => by simp [h a ha])

theorem levelInvInputs_of_allNotCurrent {l : List InputItem} (h : allNotCurrentInputs l) :
    levelInvInputs l :=
  ⟨by rw [countP_current_inputs_eq_zero h]; exact Nat.zero_le 1,
   fun i hm hc => absurd hc (by simp [h i hm])⟩

theorem setABPI_false_eq_map (fid : Nat) (l : List InputItem) :
    setActiveByParentInputs fid false l =
      l.map (fun i => if i.fieldId = fid then { i with active := true } else i) := by
  induction l with
  | nil => rfl
  | cons x rest ih => by_cases hp : x.fieldId = fid <;> simp [setActiveByParentInputs, hp, ih]

theorem allNotCurrentInputs_setABPI_false {l : List InputItem} (fid : Nat)
    (h : allNotCurrentInputs l) : allNotCurrentInputs (setActiveByParentInputs fid false l) := by
  rw [setABPI_false_eq_map]
  intro i hit
  simp only [List.mem_map] at hit
  obtain ⟨a, ha, rfl⟩ := hit
  by_cases hp : a.fieldId = fid
  · simp [hp, h a ha]
  · simp [hp, h a ha]

theorem setABPI_cons (fid : Nat) (b : Bool) (x : InputItem) (rest : List InputItem) :
    setActiveByParentInputs fid b (x :: rest) =
      if x.fieldId = fid then
        { x with active := true, current := x.current || b } ::
          setActiveByParentInputs fid false rest
      else x :: setActiveByParentInputs fid b rest := rfl

theorem levelInvInputs_setABPI (fid : Nat) :
    ∀ (b : Bool) (l : List InputItem), allNotCurrentInputs l →
      levelInvInputs (setActiveByParentInputs fid b l) := by
  intro b l
  induction l generalizing b with
  | nil => intro _; simp [setActiveByParentInputs, levelInvInputs]
  | cons x rest ih =>
    intro h
    have hx : x.current = false := h x (by simp)
    have hr : allNotCurrentInputs rest := fun i hit => h i (List.mem_cons_of_mem x hit)
    by_cases hp : x.fieldId = fid
    · have hnc := allNotCurrentInputs_setABPI_false fid hr
      rw [setABPI_cons, if_pos hp]
      refine ⟨?_, ?_⟩
      · rw [List.countP_cons, countP_current_inputs_eq_zero hnc]
        cases b <;> simp [hx]
      · intro i hit hc
        rcases List.mem_cons.mp hit with he | hm
        · subst he; rfl
        · exact absurd hc (by simp [hnc i hm])
    · have ihb := ih b hr
      rw [setABPI_cons, if_neg hp]
      refine ⟨?_, ?_⟩
      · rw [List.countP_cons]
        simp only [hx]
        simpa using ihb.1
      · intro i hit hc
        rcases List.mem_cons.mp hit with he | hm
        · subst he; exact absurd hc (by simp [hx])
        · exact ihb.2 i hm hc

theorem loop_false_eq_map :
    ∀ (fs : List Item) (l : List InputItem),
      activateInputsLoop false fs l =
        l.map (fun i =>
          { i with active := i.active || fs.any (fun f => decide (i.fieldId = f.id)) })
  | [], l => by
    simp only [activateInputsLoop, List.any_nil, Bool.or_false]
    exact (map_eq_self_of_forall _ l (fun a _ => rfl)).symm
  | f :: rest, l => by
    simp only [activateInputsLoop]
    rw [loop_false_eq_map rest, setABPI_false_eq_map, List.map_map]
    refine List.map_congr_left ?_
    intro a _
    by_cases hp : a.fieldId = f.id
    · simp [Function.comp, hp]
    · simp [Function.comp, hp]

theorem levelInvInputs_loop_false {l : List InputItem} (fs : List Item)
    (h : levelInvInputs l) : levelInvInputs (activateInputsLoop false fs l) := by
  rw [loop_false_eq_map]
  refine ⟨?_, ?_⟩
  · rw [List.countP_map]
    calc l.countP ((fun i => i.current) ∘ fun i =>
          { i with active := i.active || fs.any (fun f => decide (i.fieldId = f.id)) })
        = l.countP (fun i => i.current) := List.countP_congr (fun a _ => by simp [Function.comp])
      _ ≤ 1 := h.1
  · intro i hm hc
    simp only [List.mem_map] at hm
    obtain ⟨a, ha, rfl⟩ := hm
    have := h.2 a ha (by simpa using hc)
    simp [this]

theorem levelInvInputs_loop_true {l : List InputItem} (fs : List Item)
    (h : allNotCurrentInputs l) : levelInvInputs (activateInputsLoop true fs l) := by
  cases fs with
  | nil => exact levelInvInputs_of_allNotCurrent h
  | cons f rest =>
    have h1 := levelInvInputs_setABPI f.id true l h
    exact levelInvInputs_loop_false rest h1

/-! ## Invariant preservation through the navigation pipeline -/

theorem regsInv_setChildrenActive (st : Registries) (e : FormElement)
    (hsets : e.type = Level.card → allNotCurrent st.sets)
    (hgroups : e.type = Level.card ∨ e.type = Level.set → allNotCurrent st.groups)
    (hfields : e.type = Level.card ∨ e.type = Level.set ∨ e.type = Level.group →
      allNotCurrent st.fields)
    (hc : levelInv st.cards) (hs : levelInv st.sets) (hg : levelInv st.groups)
    (hf : levelInv st.fields) :
    regsInv (setChildrenActive st e) := by
  have hin : ∀ (fs : List Item) (l : List InputItem),
      levelInvInputs (activateInputsLoop true fs (clearACInputs l)) :=
    fun fs l => levelInvInputs_loop_true fs (allNotCurrentInputs_clearACInputs l)
  obtain ⟨t, item⟩ := e
  cases t with
  | card =>
    exact ⟨hc, levelInv_setABP _ _ _ (hsets rfl), levelInv_setABP _ _ _ (hgroups (Or.inl rfl)),
      levelInv_setABP _ _ _ (hfields (Or.inl rfl)), hin _ _⟩
  | set =>
    exact ⟨hc, hs, levelInv_setABP _ _ _ (hgroups (Or.inr rfl)),
      levelInv_setABP _ _ _ (hfields (Or.inr (Or.inl rfl))), hin _ _⟩
  | group =>
    exact ⟨hc, hs, hg, levelInv_setABP _ _ _ (hfields (Or.inr (Or.inr rfl))), hin _ _⟩
  | field =>
    exact ⟨hc, hs, hg, hf, hin _ _⟩

theorem updateHierarchyData_fields (st : Registries) (e : FormElement) :
    (updateHierarchyData st e).fields = st.fields := by
  simp only [updateHierarchyData]
  repeat' split
  all_goals rfl

theorem updateHierarchyData_inputs (st : Registries) (e : FormElement) :
    (updateHierarchyData st e).inputs = st.inputs := by
  simp only [updateHierarchyData]
  repeat' split
  all_goals rfl

theorem levelInv_updateHierarchyData_groups (st : Registries) (e : FormElement)
    (h : levelInv st.groups) : levelInv (updateHierarchyData st e).groups := by
  simp only [updateHierarchyData]
  repeat' split
  all_goals first
    | exact h
    | exact levelInv_setPairIdx _ _

theorem levelInv_updateHierarchyData_sets (st : Registries) (e : FormElement)
    (h : levelInv st.sets) : levelInv (updateHierarchyData st e).sets := by
  simp only [updateHierarchyData]
  repeat' split
  all_goals first
    | exact h
    | exact levelInv_setPairIdx _ _

theorem levelInv_updateHierarchyData_cards (st : Registries) (e : FormElement)
    (h : levelInv st.cards) : levelInv (updateHierarchyData st e).cards := by
  simp only [updateHierarchyData]
  repeat' split
  all_goals first
    | exact h
    | exact levelInv_setPairIdx _ _

theorem regsInv_updateHierarchyData {st : Registries} (e : FormElement)
    (h : regsInv st) : regsInv (updateHierarchyData st e) := by
  obtain ⟨hc, hs, hg, hf, hi⟩ := h
  refine ⟨levelInv_updateHierarchyData_cards st e hc, levelInv_updateHierarchyData_sets st e hs,
    levelInv_updateHierarchyData_groups st e hg, ?_, ?_⟩
  · rw [updateHierarchyData_fields]; exact hf
  · rw [updateHierarchyData_inputs]; exact hi

theorem regsInv_byCard {st : Registries} {d : Dir} {r : Registries} {lv : Option Level}
    (hinv : regsInv st) (hn : regsIdsNodup st)
    (h : byCard st d = Except.ok (r, lv)) : regsInv r := by
  cases hdp : dirPos st.cards d with
  | none =>
    simp only [byCard, hdp] at h
    obtain ⟨h1, -⟩ := Prod.mk.injEq .. ▸ (Except.ok.inj h)
    exact h1 ▸ hinv
  | some p =>
    cases hgc : st.cards[p]? with
    | none => simp [byCard, hdp, hgc] at h
    | some c =>
      simp only [byCard, hdp, hgc] at h
      obtain ⟨h1, -⟩ := Prod.mk.injEq .. ▸ (Except.ok.inj h)
      subst h1
      refine regsInv_setChildrenActive _ _ ?_ ?_ ?_ ?_ ?_ ?_ ?_
      · intro _; exact allNotCurrent_clearAC st.sets
      · intro _; exact allNotCurrent_clearAC st.groups
      · intro _; exact allNotCurrent_clearAC st.fields
      · exact levelInv_setPairId _ _ (allNotCurrent_clearAC st.cards) (idsNodup_clearAC hn.1)
      · exact levelInv_of_allNotCurrent (allNotCurrent_clearAC st.sets)
      · exact levelInv_of_allNotCurrent (allNotCurrent_clearAC st.groups)
      · exact levelInv_of_allNotCurrent (allNotCurrent_clearAC st.fields)

theorem regsInv_bySet {st : Registries} {d : Dir} {r : Registries} {lv : Option Level}
    (hinv : regsInv st) (hn : regsIdsNodup st)
    (h : bySet st d = Except.ok (r, lv)) : regsInv r := by
  cases hdp : dirPos st.sets d with
  | none =>
    simp only [bySet, hdp] at h
    exact regsInv_byCard hinv hn h
  | some p =>
    cases hgc : st.sets[p]? with
    | none => simp [bySet, hdp, hgc] at h
    | some c =>
      simp only [bySet, hdp, hgc] at h
      obtain ⟨h1, -⟩ := Prod.mk.injEq .. ▸ (Except.ok.inj h)
      subst h1
      refine regsInv_updateHierarchyData _ ?_
      refine regsInv_setChildrenActive _ _ ?_ ?_ ?_ ?_ ?_ ?_ ?_
      · intro hh; exact Level.noConfusion hh
      · intro _; exact allNotCurrent_clearAC st.groups
      · intro _; exact allNotCurrent_clearAC st.fields
      · exact hinv.1
      · exact levelInv_setPairId _ _ (allNotCurrent_clearAC st.sets) (idsNodup_clearAC hn.2.1)
      · exact levelInv_of_allNotCurrent (allNotCurrent_clearAC st.groups)
      · exact levelInv_of_allNotCurrent (allNotCurrent_clearAC st.fields)

theorem regsInv_byGroup {st : Registries} {d : Dir} {r : Registries} {lv : Option Level}
    (hinv : regsInv st) (hn : regsIdsNodup st)
    (h : byGroup st d = Except.ok (r, lv)) : regsInv r := by
  cases hdp : dirPos st.groups d with
  | none =>
    simp only [byGroup, hdp] at h
    exact regsInv_bySet hinv hn h
  | some p =>
    cases hgc : st.groups[p]? with
    | none => simp [byGroup, hdp, hgc] at h
    | some c =>
      simp only [byGroup, hdp, hgc] at h
      obtain ⟨h1, -⟩ := Prod.mk.injEq .. ▸ (Except.ok.inj h)
      subst h1
      refine regsInv_updateHierarchyData _ ?_
      refine regsInv_setChildrenActive _ _ ?_ ?_ ?_ ?_ ?_ ?_ ?_
      · intro hh; exact Level.noConfusion hh
      · intro hh; rcases hh with hh | hh <;> exact Level.noConfusion hh
      · intro _; exact allNotCurrent_clearAC st.fields
      · exact hinv.1
      · exact hinv.2.1
      · exact levelInv_setPairId _ _ (allNotCurrent_clearAC st.groups) (idsNodup_clearAC hn.2.2.1)
      · exact levelInv_of_allNotCurrent (allNotCurrent_clearAC st.fields)

theorem regsInv_byField {st : Registries} {d : Dir} {r : Registries} {lv : Option Level}
    (hinv : regsInv st) (hn : regsIdsNodup st)
    (h : byField st d = Except.ok (r, lv)) : regsInv r := by
  cases hdp : dirPos st.fields d with
  | none =>
    simp only [byField, hdp] at h
    exact regsInv_byGroup hinv hn h
  | some p =>
    cases hgc : st.fields[p]? with
    | none => simp [byField, hdp, hgc] at h
    | some c =>
      simp only [byField, hdp, hgc] at h
      obtain ⟨h1, -⟩ := Prod.mk.injEq .. ▸ (Except.ok.inj h)
      subst h1
      refine regsInv_updateHierarchyData _ ?_
      refine regsInv_setChildrenActive _ _ ?_ ?_ ?_ ?_ ?_ ?_ ?_
      · intro hh; exact Level.noConfusion hh
      · intro hh; rcases hh with hh | hh <;> exact Level.noConfusion hh
      · intro hh; rcases hh with hh | hh | hh <;> exact Level.noConfusion hh
      · exact hinv.1
      · exact hinv.2.1
      · exact hinv.2.2.1
      · exact levelInv_of_allNotCurrent (allNotCurrent_clearAC st.fields)

theorem wrapResult_ok {x : Except NavError (Registries × Option Level)} {r : Registries}
    {evs : List Ev} (h : wrapResult x = Except.ok (r, evs)) :
    ∃ lv, x = Except.ok (r, lv) := by
  cases x with
  | error e => simp [wrapResult] at h
  | ok p =>
    obtain ⟨r', lv⟩ := p
    cases lv with
    | some l =>
      simp only [wrapResult] at h
      obtain ⟨h1, -⟩ := Prod.mk.injEq .. ▸ (Except.ok.inj h)
      exact ⟨some l, by rw [h1]⟩
    | none =>
      simp only [wrapResult] at h
      obtain ⟨h1, -⟩ := Prod.mk.injEq .. ▸ (Except.ok.inj h)
      exact ⟨none, by rw [h1]⟩

theorem regsInv_handleMove {st : FormState} {d : MoveDir} {r : Registries} {evs : List Ev}
    (hinv : regsInv st.regs) (hn : regsIdsNodup st.regs)
    (h : handleMove st d = Except.ok (r, evs)) : regsInv r := by
  unfold handleMove at h
  split at h
  · obtain ⟨h1, -⟩ := Prod.mk.injEq .. ▸ (Except.ok.inj h)
    exact h1 ▸ hinv
  · split at h
    · obtain ⟨h1, -⟩ := Prod.mk.injEq .. ▸ (Except.ok.inj h)
      exact h1 ▸ hinv
    · split at h
      · obtain ⟨lv, hx⟩ := wrapResult_ok h
        exact regsInv_byCard hinv hn hx
      · split at h
        · obtain ⟨lv, hx⟩ := wrapResult_ok h
          exact regsInv_byField hinv hn hx
        · obtain ⟨lv, hx⟩ := wrapResult_ok h
          exact regsInv_byGroup hinv hn hx
        · obtain ⟨lv, hx⟩ := wrapResult_ok h
          exact regsInv_bySet hinv hn hx
        · obtain ⟨lv, hx⟩ := wrapResult_ok h
          exact regsInv_byCard hinv hn hx
        · simp at h

/-! ## Structural component lemmas -/

theorem clearHierarchyData_inputs (st : Registries) (t : Level) :
    (clearHierarchyData st t).inputs = st.inputs := by
  cases t <;> rfl

theorem setChildrenActive_cards (st : Registries) (e : FormElement) :
    (setChildrenActive st e).cards = st.cards := by
  obtain ⟨t, item⟩ := e
  cases t <;> rfl

theorem setChildrenActive_inputs_eq (st : Registries) (e : FormElement) :
    (setChildrenActive st e).inputs =
      activateInputsLoop true (getActiveFields (setChildrenActive st e).fields)
        (clearACInputs st.inputs) := by
  obtain ⟨t, item⟩ := e
  cases t <;> rfl

/-! ## Positional characterisation of the input re-activation -/

theorem setABPI_getElem :
    ∀ (fid : Nat) (b : Bool) (l : List InputItem) (k : Nat),
      (setActiveByParentInputs fid b l)[k]? =
        (l[k]?).map (fun i =>
          if i.fieldId = fid then
            { i with active := true,
                     current := i.current ||
                       (b && (l.take k).all (fun j => decide (j.fieldId ≠ fid))) }
          else i)
  | fid, b, [], k => by simp [setActiveByParentInputs]
  | fid, b, x :: rest, 0 => by
    rw [setABPI_cons]
    by_cases hp : x.fieldId = fid
    · rw [if_pos hp]
      simp [hp]
    · rw [if_neg hp]
      simp [hp]
  | fid, b, x :: rest, k + 1 => by
    rw [setABPI_cons]
    by_cases hp : x.fieldId = fid
    · rw [if_pos hp]
      simp only [List.getElem?_cons_succ, setABPI_getElem fid false rest k,
        List.take_succ_cons, List.all_cons]
      cases hl : rest[k]? with
      | none => simp
      | some a =>
        by_cases ha : a.fieldId = fid
        · simp [ha, hp]
        · simp [ha]
    · rw [if_neg hp]
      simp only [List.getElem?_cons_succ, setABPI_getElem fid b rest k,
        List.take_succ_cons, List.all_cons]
      cases hl : rest[k]? with
      | none => simp
      | some a =>
        by_cases ha : a.fieldId = fid
        · simp [ha, hp]
        · simp [ha, hp]

theorem loop_true_getElem (fs : List Item) (l : List InputItem) (k : Nat) :
    (activateInputsLoop true fs l)[k]? =
      (l[k]?).map (fun i =>
        { i with
          active := i.active || fs.any (fun f => decide (i.fieldId = f.id)),
          current := i.current ||
            (match fs with
             | [] => false
             | f0 :: _ => decide (i.fieldId = f0.id) &&
                 (l.take k).all (fun j => decide (j.fieldId ≠ f0.id))) }) := by
  cases fs with
  | nil =>
    simp only [activateInputsLoop, List.any_nil, Bool.or_false]
    cases hl : l[k]? with
    | none => simp
    | some a => simp
  | cons f0 rest =>
    have e1 : activateInputsLoop true (f0 :: rest) l =
        activateInputsLoop false rest (setActiveByParentInputs f0.id true l) := rfl
    rw [e1, loop_false_eq_map, List.getElem?_map, setABPI_getElem]
    cases hl : l[k]? with
    | none => simp
    | some a =>
      by_cases ha : a.fieldId = f0.id
      · simp [ha, List.any_cons]
      · simp [ha, List.any_cons]

/-- Take/all conditions reading only `fieldId` ignore the cleared flags. -/
theorem take_all_clearACInputs (l : List InputItem) (k : Nat) (p : Nat → Bool) :
    ((clearACInputs l).take k).all (fun j => p j.fieldId) =
      (l.take k).all (fun j => p j.fieldId) := by
  unfold clearACInputs
  rw [← List.map_take, List.all_map]
  rfl

/-- Full positional characterisation of the Input registry after
`setChildrenActive`: actives mirror the active Field set; only the first
matching input of the first active field is current. -/
theorem setChildrenActive_inputs_getElem (st : Registries) (e : FormElement) (k : Nat) :
    ((setChildrenActive st e).inputs)[k]? =
      (st.inputs[k]?).map (fun i =>
        { i with
          active := (getActiveFields (setChildrenActive st e).fields).any
            (fun f => decide (i.fieldId = f.id)),
          current :=
            match getActiveFields (setChildrenActive st e).fields with
            | [] => false
            | f0 :: _ => decide (i.fieldId = f0.id) &&
                (st.inputs.take k).all (fun j => decide (j.fieldId ≠ f0.id)) }) := by
  rw [setChildrenActive_inputs_eq, loop_true_getElem]
  rw [show (clearACInputs st.inputs)[k]? =
      (st.inputs[k]?).map (fun i => { i with active := false, current := false }) from
    List.getElem?_map ..]
  rw [Option.map_map]
  cases hl : st.inputs[k]? with
  | none => simp
  | some a =>
    simp only [Option.map_some', Function.comp]
    cases hfs : getActiveFields (setChildrenActive st e).fields with
    | nil => simp
    | cons f0 rest =>
      simp
      congr 1
      exact take_all_clearACInputs st.inputs k (fun x => !decide (x = f0.id))

theorem levelInvInputs_setChildrenActive (st : Registries) (e : FormElement) :
    levelInvInputs (setChildrenActive st e).inputs := by
  rw [setChildrenActive_inputs_eq]
  exact levelInvInputs_loop_true _ (allNotCurrentInputs_clearACInputs _)

/-! ## Resolver result shapes -/

theorem wrapResult_cases {x : Except NavError (Registries × Option Level)} {r : Registries}
    {evs : List Ev} (h : wrapResult x = Except.ok (r, evs)) :
    (x = Except.ok (r, none) ∧ evs = []) ∨
      ∃ l, x = Except.ok (r, some l) ∧ evs = [Ev.commit] := by
  cases x with
  | error e => simp [wrapResult] at h
  | ok p =>
    obtain ⟨r', lv⟩ := p
    cases lv with
    | some l =>
      simp only [wrapResult] at h
      obtain ⟨h1, h2⟩ := Prod.mk.injEq .. ▸ (Except.ok.inj h)
      exact Or.inr ⟨l, by rw [h1], h2.symm⟩
    | none =>
      simp only [wrapResult] at h
      obtain ⟨h1, h2⟩ := Prod.mk.injEq .. ▸ (Except.ok.inj h)
      exact Or.inl ⟨by rw [h1], h2.symm⟩

theorem byCard_shape {st : Registries} {d : Dir} {r : Registries} {lv : Level}
    (h : byCard st d = Except.ok (r, some lv)) :
    ∃ (st2 : Registries) (e : FormElement), st2.inputs = st.inputs ∧
      r.fields = (setChildrenActive st2 e).fields ∧
      r.inputs = (setChildrenActive st2 e).inputs := by
  cases hdp : dirPos st.cards d with
  | none => simp [byCard, hdp] at h
  | some p =>
    cases hgc : st.cards[p]? with
    | none => simp [byCard, hdp, hgc] at h
    | some c =>
      simp only [byCard, hdp, hgc] at h
      obtain ⟨h1, -⟩ := Prod.mk.injEq .. ▸ (Except.ok.inj h)
      subst h1
      refine ⟨{ clearHierarchyData st Level.card with
          cards := setCurrentId (setActiveId (clearHierarchyData st Level.card).cards c.id) c.id },
        ⟨Level.card, c⟩, ?_, rfl, rfl⟩
      exact clearHierarchyData_inputs st Level.card

theorem bySet_shape {st : Registries} {d : Dir} {r : Registries} {lv : Level}
    (h : bySet st d = Except.ok (r, some lv)) :
    ∃ (st2 : Registries) (e : FormElement), st2.inputs = st.inputs ∧
      r.fields = (setChildrenActive st2 e).fields ∧
      r.inputs = (setChildrenActive st2 e).inputs := by
  cases hdp : dirPos st.sets d with
  | none =>
    simp only [bySet, hdp] at h
    exact byCard_shape h
  | some p =>
    cases hgc : st.sets[p]? with
    | none => simp [bySet, hdp, hgc] at h
    | some c =>
      simp only [bySet, hdp, hgc] at h
      obtain ⟨h1, -⟩ := Prod.mk.injEq .. ▸ (Except.ok.inj h)
      subst h1
      refine ⟨{ clearHierarchyData st Level.set with
          sets := setCurrentId (setActiveId (clearHierarchyData st Level.set).sets c.id) c.id },
        ⟨Level.set, c⟩, ?_, ?_, ?_⟩
      · exact clearHierarchyData_inputs st Level.set
      · rw [updateHierarchyData_fields]
      · rw [updateHierarchyData_inputs]

theorem byGroup_shape {st : Registries} {d : Dir} {r : Registries} {lv : Level}
    (h : byGroup st d = Except.ok (r, some lv)) :
    ∃ (st2 : Registries) (e : FormElement), st2.inputs = st.inputs ∧
      r.fields = (setChildrenActive st2 e).fields ∧
      r.inputs = (setChildrenActive st2 e).inputs := by
  cases hdp : dirPos st.groups d with
  | none =>
    simp only [byGroup, hdp] at h
    exact bySet_shape h
  | some p =>
    cases hgc : st.groups[p]? with
    | none => simp [byGroup, hdp, hgc] at h
    | some c =>
      simp only [byGroup, hdp, hgc] at h
      obtain ⟨h1, -⟩ := Prod.mk.injEq .. ▸ (Except.ok.inj h)
      subst h1
      refine ⟨{ clearHierarchyData st Level.group with
          groups := setCurrentId (setActiveId (clearHierarchyData st Level.group).groups c.id) c.id },
        ⟨Level.group, c⟩, ?_, ?_, ?_⟩
      · exact clearHierarchyData_inputs st Level.group
      · rw [updateHierarchyData_fields]
      · rw [updateHierarchyData_inputs]

theorem byField_shape {st : Registries} {d : Dir} {r : Registries} {lv : Level}
    (h : byField st d = Except.ok (r, some lv)) :
    ∃ (st2 : Registries) (e : FormElement), st2.inputs = st.inputs ∧
      r.fields = (setChildrenActive st2 e).fields ∧
      r.inputs = (setChildrenActive st2 e).inputs := by
  cases hdp : dirPos st.fields d with
  | none =>
    simp only [byField, hdp] at h
    exact byGroup_shape h
  | some p =>
    cases hgc : st.fields[p]? with
    | none => simp [byField, hdp, hgc] at h
    | some c =>
      simp only [byField, hdp, hgc] at h
      obtain ⟨h1, -⟩ := Prod.mk.injEq .. ▸ (Except.ok.inj h)
      subst h1
      refine ⟨clearHierarchyData st Level.field, ⟨Level.field, c⟩, ?_, ?_, ?_⟩
      · exact clearHierarchyData_inputs st Level.field
      · rw [updateHierarchyData_fields]
      · rw [updateHierarchyData_inputs]

theorem handleMove_commit_shape {st : FormState} {d : MoveDir} {r : Registries}
    {evs : List Ev} (h : handleMove st d = Except.ok (r, evs)) (hcm : Ev.commit ∈ evs) :
    ∃ (st2 : Registries) (e : FormElement), st2.inputs = st.regs.inputs ∧
      r.fields = (setChildrenActive st2 e).fields ∧
      r.inputs = (setChildrenActive st2 e).inputs := by
  unfold handleMove at h
  split at h
  · obtain ⟨-, h2⟩ := Prod.mk.injEq .. ▸ (Except.ok.inj h)
    rw [← h2] at hcm
    simp at hcm
  · split at h
    · obtain ⟨-, h2⟩ := Prod.mk.injEq .. ▸ (Except.ok.inj h)
      rw [← h2] at hcm
      simp at hcm
    · split at h
      · rcases wrapResult_cases h with ⟨-, he⟩ | ⟨l, hx, -⟩
        · subst he; simp at hcm
        · exact byCard_shape hx
      · split at h
        · rcases wrapResult_cases h with ⟨-, he⟩ | ⟨l, hx, -⟩
          · subst he; simp at hcm
          · exact byField_shape hx
        · rcases wrapResult_cases h with ⟨-, he⟩ | ⟨l, hx, -⟩
          · subst he; simp at hcm
          · exact byGroup_shape hx
        · rcases wrapResult_cases h with ⟨-, he⟩ | ⟨l, hx, -⟩
          · subst he; simp at hcm
          · exact bySet_shape hx
        · rcases wrapResult_cases h with ⟨-, he⟩ | ⟨l, hx, -⟩
          · subst he; simp at hcm
          · exact byCard_shape hx
        · simp at h

/-! ## Upward-sync characterisations (for the hierarchy-sync claim) -/

theorem updateHierarchyData_field_eq (st : Registries) (item : Item)
    {ci si gi : Int} (hph : item.parentHierarchy = ⟨some ci, some si, some gi⟩)
    (hci : 0 ≤ ci) (hsi : 0 ≤ si) (hgi : 0 ≤ gi) :
    updateHierarchyData st ⟨Level.field, item⟩ =
      { st with
        groups := setCurrentIdx (setActiveIdx (clearAC st.groups) gi.toNat) gi.toNat,
        sets := setCurrentIdx (setActiveIdx (clearAC st.sets) si.toNat) si.toNat,
        cards := setCurrentIdx (setActiveIdx (clearAC st.cards) ci.toNat) ci.toNat } := by
  simp [updateHierarchyData, hph, hgi, hsi, hci]

/-- Upward sync of a resolved group: the Group level is skipped; Set and Card
levels are cleared and re-set at the stored indices. -/
theorem updateHierarchyData_group_eq (st : Registries) (item : Item)
    {ci si : Int} {gidx : Option Int}
    (hph : item.parentHierarchy = ⟨some ci, some si, gidx⟩)
    (hci : 0 ≤ ci) (hsi : 0 ≤ si) :
    updateHierarchyData st ⟨Level.group, item⟩ =
      { st with
        sets := setCurrentIdx (setActiveIdx (clearAC st.sets) si.toNat) si.toNat,
        cards := setCurrentIdx (setActiveIdx (clearAC st.cards) ci.toNat) ci.toNat } := by
  simp [updateHierarchyData, hph, hsi, hci]

/-- Upward sync of a resolved set: only the Card level is cleared and re-set
at the stored index. -/
theorem updateHierarchyData_set_eq (st : Registries) (item : Item)
    {ci : Int} {sidx gidx : Option Int}
    (hph : item.parentHierarchy = ⟨some ci, sidx, gidx⟩)
    (hci : 0 ≤ ci) :
    updateHierarchyData st ⟨Level.set, item⟩ =
      { st with
        cards := setCurrentIdx (setActiveIdx (clearAC st.cards) ci.toNat) ci.toNat } := by
  simp [updateHierarchyData, hph, hci]

theorem updateHierarchyData_group_groups (st : Registries) (item : Item) :
    (updateHierarchyData st ⟨Level.group, item⟩).groups = st.groups := by
  simp only [updateHierarchyData]
  repeat' split
  all_goals first | rfl | simp_all

theorem updateHierarchyData_set_groups (st : Registries) (item : Item) :
    (updateHierarchyData st ⟨Level.set, item⟩).groups = st.groups := by
  simp only [updateHierarchyData]
  repeat' split
  all_goals first | rfl | simp_all

theorem updateHierarchyData_set_sets (st : Registries) (item : Item) :
    (updateHierarchyData st ⟨Level.set, item⟩).sets = st.sets := by
  simp only [updateHierarchyData]
  repeat' split
  all_goals first | rfl | simp_all

/-- On a successful card resolution the Card registry is configured purely
from the resolved position (no upward sync from `parentHierarchy`). -/
theorem byCard_cards_getElem {st : Registries} {d : Dir} {r : Registries}
    {lv : Option Level} {p : Nat} {c : Item} (hn : idsNodup st.cards)
    (hdp : dirPos st.cards d = some p) (hgc : st.cards[p]? = some c)
    (h : byCard st d = Except.ok (r, lv)) (k : Nat) :
    r.cards[k]? = (st.cards[k]?).map (fun it =>
      { it with active := decide (k = p), current := decide (k = p) }) := by
  simp only [byCard, hdp, hgc] at h
  obtain ⟨h1, -⟩ := Prod.mk.injEq .. ▸ (Except.ok.inj h)
  subst h1
  rw [setChildrenActive_cards]
  have hc' : (clearAC st.cards)[p]? =
      some { c with active := false, current := false } := by
    rw [clearAC_getElem, hgc]; rfl
  have hchar := setPairId_getElem (idsNodup_clearAC hn) hc' k
  rw [show (clearHierarchyData st Level.card).cards = clearAC st.cards from rfl]
  rw [show ({ c with active := false, current := false } : Item).id = c.id from rfl] at hchar
  rw [hchar, clearAC_getElem, Option.map_map]
  cases hl : st.cards[k]? with
  | none => simp
  | some a =>
    by_cases hk : k = p
    · simp [hk, Function.comp]
    · simp [hk, Function.comp]

/-! ## Validation and event lemmas -/

theorem validateCurrent_eq_false {st : Registries}
    (h : ∃ i ∈ st.inputs, i.active = true ∧ i.isIncluded = true ∧ i.isValid = false) :
    validateCurrent st = false := by
  obtain ⟨i, hm, ha, hinc, hv⟩ := h
  unfold validateCurrent
  rw [List.all_eq_false]
  exact ⟨i, List.mem_filter.mpr ⟨hm, by simp [ha, hinc]⟩, by simp [hv]⟩

theorem wrapResult_events {x : Except NavError (Registries × Option Level)} {r : Registries}
    {evs : List Ev} (h : wrapResult x = Except.ok (r, evs)) :
    evs = [] ∨ evs = [Ev.commit] := by
  rcases wrapResult_cases h with ⟨-, he⟩ | ⟨l, -, he⟩
  · exact Or.inl he
  · exact Or.inr he

/-! ## Button logic lemmas -/

theorem dNOS_next_of_active {btns : List ButtonItem} {b : ButtonItem} (hb : b ∈ btns)
    (ha : b.active = true) (hv : b.visible = true) (ht : b.type = BType.next) :
    determineNextOrSubmit btns = BType.next := by
  have hmem : b ∈ getActiveButtons btns :=
    List.mem_filter.mpr ⟨hb, by simp [ha, hv]⟩
  have hsome : ((getActiveButtons btns).find? (fun x => x.type == BType.next)).isSome :=
    List.find?_isSome.mpr ⟨b, hmem, by simp [ht]⟩
  simp only [determineNextOrSubmit]
  cases hf : (getActiveButtons btns).find? (fun x => x.type == BType.next) with
  | none => rw [hf] at hsome; simp at hsome
  | some _ => simp [hf]

theorem dNOS_no_next {btns : List ButtonItem}
    (hno : ∀ b ∈ btns, b.active = true → b.visible = true → b.type ≠ BType.next) :
    ((getActiveButtons btns).find? (fun x => x.type == BType.next)) = none := by
  rw [List.find?_eq_none]
  intro x hx
  have := List.mem_filter.mp hx
  have hav : x.active = true ∧ x.visible = true := by
    constructor <;> [exact (Bool.and_eq_true ..|>.mp this.2).1;
      exact (Bool.and_eq_true ..|>.mp this.2).2]
  simp [hno x this.1 hav.1 hav.2]

theorem dNOS_submit_of_active {btns : List ButtonItem}
    (hno : ∀ b ∈ btns, b.active = true → b.visible = true → b.type ≠ BType.next)
    {b : ButtonItem} (hb : b ∈ btns) (ha : b.active = true) (hv : b.visible = true)
    (ht : b.type = BType.submit) :
    determineNextOrSubmit btns = BType.submit := by
  have hmem : b ∈ getActiveButtons btns :=
    List.mem_filter.mpr ⟨hb, by simp [ha, hv]⟩
  have hsome : ((getActiveButtons btns).find? (fun x => x.type == BType.submit)).isSome :=
    List.find?_isSome.mpr ⟨b, hmem, by simp [ht]⟩
  simp only [determineNextOrSubmit]
  rw [dNOS_no_next hno]
  cases hf : (getActiveButtons btns).find? (fun x => x.type == BType.submit) with
  | none => rw [hf] at hsome; simp at hsome
  | some _ => simp [hf]

theorem dNOS_default {btns : List ButtonItem}
    (hnoN : ∀ b ∈ btns, b.active = true → b.visible = true → b.type ≠ BType.next)
    (hnoS : ∀ b ∈ btns, b.active = true → b.visible = true → b.type ≠ BType.submit) :
    determineNextOrSubmit btns = BType.next := by
  have hs : ((getActiveButtons btns).find? (fun x => x.type == BType.submit)) = none := by
    rw [List.find?_eq_none]
    intro x hx
    have := List.mem_filter.mp hx
    have hav : x.active = true ∧ x.visible = true := by
      constructor <;> [exact (Bool.and_eq_true ..|>.mp this.2).1;
        exact (Bool.and_eq_true ..|>.mp this.2).2]
    simp [hnoS x this.1 hav.1 hav.2]
  simp only [determineNextOrSubmit]
  rw [dNOS_no_next hnoN, hs]

/-- Agreement on `active`, `visible` and `type` (everything
`determineNextOrSubmit` may consult). -/
theorem forall2_filter_av {l1 l2 : List ButtonItem}
    (h : List.Forall₂
      (fun x y => x.active = y.active ∧ x.visible = y.visible ∧ x.type = y.type) l1 l2) :
    List.Forall₂
      (fun x y => x.active = y.active ∧ x.visible = y.visible ∧ x.type = y.type)
      (getActiveButtons l1) (getActiveButtons l2) := by
  induction h with
  | nil => exact List.Forall₂.nil
  | cons hxy hrest ih =>
    rename_i x y rest1 rest2
    simp only [getActiveButtons, List.filter_cons]
    by_cases hav : (x.active && x.visible) = true
    · have hav2 : (y.active && y.visible) = true := by
        rw [← hxy.1, ← hxy.2.1]; exact hav
      rw [if_pos hav, if_pos hav2]
      exact List.Forall₂.cons hxy ih
    · have hav2 : ¬((y.active && y.visible) = true) := by
        rw [← hxy.1, ← hxy.2.1]; exact hav
      rw [if_neg hav, if_neg hav2]
      exact ih

theorem forall2_find_isSome {l1 l2 : List ButtonItem} (t : BType)
    (h : List.Forall₂
      (fun x y => x.active = y.active ∧ x.visible = y.visible ∧ x.type = y.type) l1 l2) :
    (l1.find? (fun b => b.type == t)).isSome = (l2.find? (fun b => b.type == t)).isSome := by
  induction h with
  | nil => rfl
  | cons hxy hrest ih =>
    rename_i x y rest1 rest2
    rw [List.find?_cons, List.find?_cons]
    cases hx : (x.type == t) with
    | true =>
      have hy : (y.type == t) = true := by rw [← hxy.2.2]; exact hx
      rw [hy]
      rfl
    | false =>
      have hy : (y.type == t) = false := by rw [← hxy.2.2]; exact hx
      rw [hy]
      exact ih

theorem dNOS_eq_isSome (btns : List ButtonItem) :
    determineNextOrSubmit btns =
      (if ((getActiveButtons btns).find? (fun b => b.type == BType.next)).isSome then
        BType.next
       else if ((getActiveButtons btns).find? (fun b => b.type == BType.submit)).isSome then
        BType.submit
       else BType.next) := by
  simp only [determineNextOrSubmit]
  cases h1 : (getActiveButtons btns).find? (fun b => b.type == BType.next) with
  | some v => simp
  | none =>
    cases h2 : (getActiveButtons btns).find? (fun b => b.type == BType.submit) with
    | some v => simp
    | none => simp

/-! ## Claim theorems -/

/-- C1: whenever some active+included input is invalid, `handleMove` on
`next` and `submit` (with navigation enabled) emits exactly the
navigation-denied event with reason `invalid` and returns the registries
untouched (no commit); `prev` is never denied, for any validity
configuration. -/
theorem C1_validation_gating :
    (∀ (st : FormState) (d : MoveDir), st.navigationEnabled = true →
      (∃ i ∈ st.regs.inputs, i.active = true ∧ i.isIncluded = true ∧ i.isValid = false) →
      (d = MoveDir.next ∨ d = MoveDir.submit) →
      handleMove st d = Except.ok (st.regs, [Ev.denied "invalid"])) ∧
    (∀ (st : FormState) (r : Registries) (evs : List Ev) (reason : String),
      handleMove st MoveDir.prev = Except.ok (r, evs) → Ev.denied reason ∉ evs) := by
  constructor
  · intro st d hen hinv hd
    have hv := validateCurrent_eq_false hinv
    have hen2 : ¬(st.navigationEnabled = false) := by rw [hen]; simp
    rcases hd with rfl | rfl
    · simp [handleMove, hen2, canMove, hv]
    · simp [handleMove, hen2, canMove, hv]
  · intro st r evs reason h
    unfold handleMove at h
    split at h
    · obtain ⟨-, h2⟩ := Prod.mk.injEq .. ▸ (Except.ok.inj h)
      rw [← h2]
      simp
    · split at h
      · rename_i hcm
        simp [canMove] at hcm
      · split at h
        · rename_i hsub
          simp at hsub
        · split at h
          · rcases wrapResult_events h with he | he <;> rw [he] <;> simp
          · rcases wrapResult_events h with he | he <;> rw [he] <;> simp
          · rcases wrapResult_events h with he | he <;> rw [he] <;> simp
          · rcases wrapResult_events h with he | he <;> rw [he] <;> simp
          · simp at h

/-- C1 witness: a concrete invalid-input state is denied on `next`, and a
concrete `prev` move emits no denial. -/
theorem C1_validation_gating_witness :
    handleMove ⟨regsInvalidInput, "byCard", true⟩ MoveDir.next =
      Except.ok (regsInvalidInput, [Ev.denied "invalid"]) ∧
    Ev.denied "invalid" ∉ ([] : List Ev) :=
  ⟨C1_validation_gating.1 ⟨regsInvalidInput, "byCard", true⟩ MoveDir.next rfl
      ⟨⟨20, 10, true, true, true, false⟩, by decide, rfl, rfl, rfl⟩ (Or.inl rfl),
   C1_validation_gating.2 ⟨regsInvalidInput, "byCard", true⟩ regsInvalidInput [] "invalid"
      rfl⟩

/-- C2: each resolver falls through to the next-coarser resolver with the
same direction when its position query is undefined; the card resolver is
terminal at the boundary (no mutation), and a boundary `submit` / card-mode
`next` request completes with no registry change and no commit. -/
theorem C2_boundary_fallthrough :
    ∀ (st : Registries) (d : Dir),
      (dirPos st.fields d = none → byField st d = byGroup st d) ∧
      (dirPos st.groups d = none → byGroup st d = bySet st d) ∧
      (dirPos st.sets d = none → bySet st d = byCard st d) ∧
      (dirPos st.cards d = none → byCard st d = Except.ok (st, none)) ∧
      (getNextPosition st.cards = none → validateCurrent st = true →
        ∀ (b : String) (en : Bool),
          handleMove ⟨st, b, en⟩ MoveDir.submit = Except.ok (st, []) ∧
          handleMove ⟨st, "byCard", en⟩ MoveDir.next = Except.ok (st, [])) := by
  intro st d
  refine ⟨?_, ?_, ?_, ?_, ?_⟩
  · intro h; simp [byField, h]
  · intro h; simp [byGroup, h]
  · intro h; simp [bySet, h]
  · intro h; simp [byCard, h]
  · intro hcb hv b en
    constructor
    · cases en with
      | false => simp [handleMove]
      | true => simp [handleMove, canMove, hv, wrapResult, byCard, dirPos, toDir, hcb]
    · cases en with
      | false => simp [handleMove]
      | true => simp [handleMove, canMove, hv, wrapResult, byCard, dirPos, toDir, hcb]

/-- C2 witness: on empty registries every position query is undefined, so the
whole fallthrough chain collapses to the terminal no-change result. -/
theorem C2_boundary_fallthrough_witness :
    byField regsEmpty Dir.next = Except.ok (regsEmpty, none) ∧
    handleMove ⟨regsEmpty, "byCard", true⟩ MoveDir.next = Except.ok (regsEmpty, []) := by
  have h := C2_boundary_fallthrough regsEmpty Dir.next
  have h1 := h.1 (by decide)
  have h2 := h.2.1 (by decide)
  have h3 := h.2.2.1 (by decide)
  have h4 := h.2.2.2.1 (by decide)
  have h5 := (h.2.2.2.2 (by decide) (by decide) "byCard" true).2
  exact ⟨h1.trans (h2.trans (h3.trans h4)), h5⟩

/-- C5: when validation passes, `submit` behaves exactly like a card-mode
`next`: same result registries and emissions for any configured behavior,
and it goes straight to the card resolver moving next. -/
theorem C5_submit_equivalence :
    ∀ (regs : Registries) (b : String) (en : Bool), validateCurrent regs = true →
      handleMove ⟨regs, b, en⟩ MoveDir.submit =
        handleMove ⟨regs, "byCard", en⟩ MoveDir.next ∧
      (en = true →
        handleMove ⟨regs, b, en⟩ MoveDir.submit = wrapResult (byCard regs Dir.next)) := by
  intro regs b en hv
  constructor
  · cases en with
    | false => rfl
    | true => simp [handleMove, canMove, hv, toDir]
  · intro hen
    subst hen
    simp [handleMove, canMove, hv]

/-- C5 witness: concrete equivalence on the two-card state with valid
inputs. -/
theorem C5_submit_equivalence_witness :
    handleMove ⟨regsTwoCards, "byField", true⟩ MoveDir.submit =
      handleMove ⟨regsTwoCards, "byCard", true⟩ MoveDir.next ∧
    handleMove ⟨regsTwoCards, "byField", true⟩ MoveDir.submit =
      wrapResult (byCard regsTwoCards Dir.next) := by
  have h := C5_submit_equivalence regsTwoCards "byField" true (by decide)
  exact ⟨h.1, h.2 rfl⟩

/-- C9 counterexample: with an unrecognized behavior value, a `submit`
request does NOT throw — it performs the card-level move (here terminal on
empty registries), because the submit short-circuit precedes the behavior
dispatch. -/
theorem C9_cex_submit_bypasses_dispatch :
    handleMove ⟨regsEmpty, "bogus", true⟩ MoveDir.submit = Except.ok (regsEmpty, []) := by
  rfl

/-- C9 amended: for `prev` and `next` (navigation enabled; validation passing
where required), an unrecognized behavior value throws the typed fatal error
carrying that value; `submit` never throws the invalid-behavior error. -/
theorem C9_amended_invalid_behavior :
    (∀ (regs : Registries) (b : String) (d : MoveDir),
      b ≠ "byField" → b ≠ "byGroup" → b ≠ "bySet" → b ≠ "byCard" →
      (d = MoveDir.prev ∨ (d = MoveDir.next ∧ validateCurrent regs = true)) →
      handleMove ⟨regs, b, true⟩ d = Except.error (NavError.invalidBehavior b)) ∧
    (∀ (st : FormState) (b2 : String),
      handleMove st MoveDir.submit ≠ Except.error (NavError.invalidBehavior b2)) := by
  constructor
  · intro regs b d h1 h2 h3 h4 hd
    rcases hd with rfl | ⟨rfl, hv⟩
    · simp only [handleMove]
      rw [if_neg (by simp), if_neg (by simp [canMove]), if_neg (by simp)]
    · simp only [handleMove]
      rw [if_neg (by simp), if_neg (by simp [canMove, hv]), if_neg (by simp)]
  · intro st b2 h
    unfold handleMove at h
    split at h
    · simp at h
    · split at h
      · simp at h
      · split at h
        · -- wrapResult of byCard: errors are nullTarget only
          cases hx : byCard st.regs Dir.next with
          | error e =>
            rw [hx] at h
            simp only [wrapResult] at h
            cases hx2 : dirPos st.regs.cards Dir.next with
            | none => simp [byCard, hx2] at hx
            | some p =>
              cases hx3 : st.regs.cards[p]? with
              | none =>
                simp only [byCard, hx2, hx3] at hx
                have he := Except.error.inj hx
                rw [← he] at h
                have := Except.error.inj h
                simp at this
              | some c => simp [byCard, hx2, hx3] at hx
          | ok p =>
            rw [hx] at h
            obtain ⟨r, lv⟩ := p
            cases lv with
            | some l => simp [wrapResult] at h
            | none => simp [wrapResult] at h
        · rename_i hsub
          simp at hsub

/-- C9 witness for the amended claim: a concrete unrecognized behavior throws
on `prev`, and the concrete submit bypass from the counterexample does not
produce the invalid-behavior error. -/
theorem C9_amended_invalid_behavior_witness :
    handleMove ⟨regsEmpty, "bogus", true⟩ MoveDir.prev =
      Except.error (NavError.invalidBehavior "bogus") ∧
    handleMove ⟨regsEmpty, "bogus", true⟩ MoveDir.submit ≠
      Except.error (NavError.invalidBehavior "bogus") :=
  ⟨C9_amended_invalid_behavior.1 regsEmpty "bogus" MoveDir.prev (by decide) (by decide)
      (by decide) (by decide) (Or.inl rfl),
   C9_amended_invalid_behavior.2 ⟨regsEmpty, "bogus", true⟩ "bogus"⟩

/-- C8: `determineNextOrSubmit` returns `next` when an active+visible next
control exists (an inactive submit elsewhere never overrides it); otherwise
`submit` when an active+visible submit control exists; otherwise the `next`
fallback. -/
theorem C8_determine_next_or_submit :
    ∀ btns : List ButtonItem,
      ((∃ b ∈ btns, b.active = true ∧ b.visible = true ∧ b.type = BType.next) →
        determineNextOrSubmit btns = BType.next) ∧
      ((∀ b ∈ btns, b.active = true → b.visible = true → b.type ≠ BType.next) →
        (∃ b ∈ btns, b.active = true ∧ b.visible = true ∧ b.type = BType.submit) →
        determineNextOrSubmit btns = BType.submit) ∧
      ((∀ b ∈ btns, b.active = true → b.visible = true → b.type ≠ BType.next) →
        (∀ b ∈ btns, b.active = true → b.visible = true → b.type ≠ BType.submit) →
        determineNextOrSubmit btns = BType.next) := by
  intro btns
  refine ⟨?_, ?_, ?_⟩
  · rintro ⟨b, hb, ha, hv, ht⟩
    exact dNOS_next_of_active hb ha hv ht
  · rintro hno ⟨b, hb, ha, hv, ht⟩
    exact dNOS_submit_of_active hno hb ha hv ht
  · intro hnoN hnoS
    exact dNOS_default hnoN hnoS

/-- C8 witness: with one active next control and an inactive submit control,
the decision is `next`. -/
theorem C8_determine_next_or_submit_witness :
    determineNextOrSubmit btnsNextActive = BType.next :=
  (C8_determine_next_or_submit btnsNextActive).1
    ⟨⟨true, true, false, BType.next⟩, by decide, rfl, rfl, rfl⟩

/-- C10: `determineNextOrSubmit` depends only on each button's active,
visible and type fields (never on `disabled` or on input validity); the
Enter-key handler therefore emits the `next` navigation request whenever an
active+visible next control exists, and with all active+included inputs
invalid that request is then denied downstream rather than suppressed. -/
theorem C10_button_purity :
    (∀ (b1 b2 : List ButtonItem),
      List.Forall₂
        (fun x y => x.active = y.active ∧ x.visible = y.visible ∧ x.type = y.type) b1 b2 →
      determineNextOrSubmit b1 = determineNextOrSubmit b2) ∧
    (∀ btns : List ButtonItem,
      (∃ b ∈ btns, b.active = true ∧ b.visible = true ∧ b.type = BType.next) →
      enterKeyDecision btns = EnterEmit.navigationRequestNext) ∧
    (∀ (btns : List ButtonItem) (regs : Registries) (beh : String),
      enterKeyDecision btns = EnterEmit.navigationRequestNext →
      (∃ i ∈ regs.inputs, i.active = true ∧ i.isIncluded = true ∧ i.isValid = false) →
      handleMove ⟨regs, beh, true⟩ MoveDir.next = Except.ok (regs, [Ev.denied "invalid"])) := by
  refine ⟨?_, ?_, ?_⟩
  · intro b1 b2 hagree
    rw [dNOS_eq_isSome b1, dNOS_eq_isSome b2,
      forall2_find_isSome BType.next (forall2_filter_av hagree),
      forall2_find_isSome BType.submit (forall2_filter_av hagree)]
  · rintro btns ⟨b, hb, ha, hv, ht⟩
    unfold enterKeyDecision
    rw [dNOS_next_of_active hb ha hv ht]
    simp
  · intro btns regs beh hek hinv
    have hv := validateCurrent_eq_false hinv
    simp [handleMove, canMove, hv]

/-- C10 witness: flipping only the `disabled` flags leaves the decision
unchanged; the Enter-key decision on the concrete buttons is the navigation
request, and it is denied downstream on the concrete invalid state. -/
theorem C10_button_purity_witness :
    determineNextOrSubmit btnsNextActive =
      determineNextOrSubmit
        [⟨true, true, true, BType.next⟩, ⟨false, true, false, BType.submit⟩] ∧
    enterKeyDecision btnsNextActive = EnterEmit.navigationRequestNext ∧
    handleMove ⟨regsInvalidInput, "byCard", true⟩ MoveDir.next =
      Except.ok (regsInvalidInput, [Ev.denied "invalid"]) :=
  ⟨C10_button_purity.1 btnsNextActive
      [⟨true, true, true, BType.next⟩, ⟨false, true, false, BType.submit⟩]
      (List.Forall₂.cons (by exact ⟨rfl, rfl, rfl⟩)
        (List.Forall₂.cons (by exact ⟨rfl, rfl, rfl⟩) List.Forall₂.nil)),
   C10_button_purity.2.1 btnsNextActive
      ⟨⟨true, true, false, BType.next⟩, by decide, rfl, rfl, rfl⟩,
   C10_button_purity.2.2 btnsNextActive regsInvalidInput "byCard" rfl
      ⟨⟨20, 10, true, true, true, false⟩, by decide, rfl, rfl, rfl⟩⟩

/-- C3 (code bug): on every successful field-level resolution, the resolved
field is NOT marked active or current — `byField` clears the field level and,
unlike the other three resolvers, never calls `setActive`/`setCurrent` on its
target, so the move ends with no active or current field at all (the spec
requires the resolved item to end active+current at its level). -/
theorem C3_byField_never_activates_target :
    ∀ (st : Registries) (d : Dir) (p : Nat) (f : Item),
      dirPos st.fields d = some p → st.fields[p]? = some f →
      ∃ r, byField st d = Except.ok (r, some Level.field) ∧
        ∀ g ∈ r.fields, g.active = false ∧ g.current = false := by
  intro st d p f hdp hgc
  refine ⟨updateHierarchyData
      (setChildrenActive (clearHierarchyData st Level.field) ⟨Level.field, f⟩)
      ⟨Level.field, f⟩, ?_, ?_⟩
  · simp only [byField, hdp, hgc]
  · rw [updateHierarchyData_fields]
    intro g hg
    exact mem_clearAC (show g ∈ clearAC st.fields from hg)

/-- C3 witness: the concrete field-mode state; after `next`, every field
(including the resolved target, id 11) ends inactive and non-current. -/
theorem C3_byField_never_activates_target_witness :
    ∃ r, byField regsFieldMode Dir.next = Except.ok (r, some Level.field) ∧
      ∀ g ∈ r.fields, g.active = false ∧ g.current = false :=
  C3_byField_never_activates_target regsFieldMode Dir.next 1
    ⟨11, false, false, ⟨some 0, some 0, some 0⟩⟩ (by decide) (by decide)

/-- C4: current-exclusivity (at most one current per level and
current ⇒ active, across all five registries) is preserved by `handleMove`
and by each of the four resolvers, given unique ids per level. -/
theorem C4_current_exclusivity :
    (∀ (st : FormState) (d : MoveDir) (r : Registries) (evs : List Ev),
      regsInv st.regs → regsIdsNodup st.regs →
      handleMove st d = Except.ok (r, evs) → regsInv r) ∧
    (∀ (st : Registries) (d : Dir) (r : Registries) (lv : Option Level),
      regsInv st → regsIdsNodup st → byField st d = Except.ok (r, lv) → regsInv r) ∧
    (∀ (st : Registries) (d : Dir) (r : Registries) (lv : Option Level),
      regsInv st → regsIdsNodup st → byGroup st d = Except.ok (r, lv) → regsInv r) ∧
    (∀ (st : Registries) (d : Dir) (r : Registries) (lv : Option Level),
      regsInv st → regsIdsNodup st → bySet st d = Except.ok (r, lv) → regsInv r) ∧
    (∀ (st : Registries) (d : Dir) (r : Registries) (lv : Option Level),
      regsInv st → regsIdsNodup st → byCard st d = Except.ok (r, lv) → regsInv r) :=
  ⟨fun _ _ _ _ h1 h2 h3 => regsInv_handleMove h1 h2 h3,
   fun _ _ _ _ h1 h2 h3 => regsInv_byField h1 h2 h3,
   fun _ _ _ _ h1 h2 h3 => regsInv_byGroup h1 h2 h3,
   fun _ _ _ _ h1 h2 h3 => regsInv_bySet h1 h2 h3,
   fun _ _ _ _ h1 h2 h3 => regsInv_byCard h1 h2 h3⟩

/-- C4 witness: the concrete card-level move preserves the invariant. -/
theorem C4_current_exclusivity_witness : regsInv regsTwoCardsRes :=
  C4_current_exclusivity.1 ⟨regsTwoCards, "byCard", true⟩ MoveDir.next regsTwoCardsRes
    [Ev.commit] (by unfold regsInv levelInv levelInvInputs; decide)
    (by unfold regsIdsNodup idsNodup; decide) rfl

/-- C6: the upward hierarchy sync clears and re-sets exactly the ancestor
named by each stored `parentHierarchy` index on every ancestor level the
resolved element's type possesses — group/set/card for a resolved field, set
and card for a resolved group, card for a resolved set (fields and inputs
untouched) — while levels the element type does not have are skipped (a
group element never touches the Group level, a set element touches neither
Group nor Set); and a successful card resolution configures the Card
registry purely from the resolved position — no upward sync from
`parentHierarchy` occurs. -/
theorem C6_upward_hierarchy_sync :
    (∀ (st : Registries) (item : Item) (ci si gi : Int),
      item.parentHierarchy = ⟨some ci, some si, some gi⟩ →
      0 ≤ ci → 0 ≤ si → 0 ≤ gi →
      (∀ k, (updateHierarchyData st ⟨Level.field, item⟩).groups[k]? =
        (st.groups[k]?).map (fun (it : Item) =>
          { it with active := decide (k = gi.toNat), current := decide (k = gi.toNat) })) ∧
      (∀ k, (updateHierarchyData st ⟨Level.field, item⟩).sets[k]? =
        (st.sets[k]?).map (fun (it : Item) =>
          { it with active := decide (k = si.toNat), current := decide (k = si.toNat) })) ∧
      (∀ k, (updateHierarchyData st ⟨Level.field, item⟩).cards[k]? =
        (st.cards[k]?).map (fun (it : Item) =>
          { it with active := decide (k = ci.toNat), current := decide (k = ci.toNat) })) ∧
      (updateHierarchyData st ⟨Level.field, item⟩).fields = st.fields ∧
      (updateHierarchyData st ⟨Level.field, item⟩).inputs = st.inputs) ∧
    (∀ (st : Registries) (item : Item) (ci si : Int) (gidx : Option Int),
      item.parentHierarchy = ⟨some ci, some si, gidx⟩ →
      0 ≤ ci → 0 ≤ si →
      (∀ k, (updateHierarchyData st ⟨Level.group, item⟩).sets[k]? =
        (st.sets[k]?).map (fun (it : Item) =>
          { it with active := decide (k = si.toNat), current := decide (k = si.toNat) })) ∧
      (∀ k, (updateHierarchyData st ⟨Level.group, item⟩).cards[k]? =
        (st.cards[k]?).map (fun (it : Item) =>
          { it with active := decide (k = ci.toNat), current := decide (k = ci.toNat) })) ∧
      (updateHierarchyData st ⟨Level.group, item⟩).fields = st.fields ∧
      (updateHierarchyData st ⟨Level.group, item⟩).inputs = st.inputs) ∧
    (∀ (st : Registries) (item : Item) (ci : Int) (sidx gidx : Option Int),
      item.parentHierarchy = ⟨some ci, sidx, gidx⟩ → 0 ≤ ci →
      (∀ k, (updateHierarchyData st ⟨Level.set, item⟩).cards[k]? =
        (st.cards[k]?).map (fun (it : Item) =>
          { it with active := decide (k = ci.toNat), current := decide (k = ci.toNat) })) ∧
      (updateHierarchyData st ⟨Level.set, item⟩).fields = st.fields ∧
      (updateHierarchyData st ⟨Level.set, item⟩).inputs = st.inputs) ∧
    (∀ (st : Registries) (item : Item),
      (updateHierarchyData st ⟨Level.group, item⟩).groups = st.groups) ∧
    (∀ (st : Registries) (item : Item),
      (updateHierarchyData st ⟨Level.set, item⟩).groups = st.groups ∧
      (updateHierarchyData st ⟨Level.set, item⟩).sets = st.sets) ∧
    (∀ (st : Registries) (d : Dir) (r : Registries) (lv : Option Level) (p : Nat) (c : Item),
      idsNodup st.cards → dirPos st.cards d = some p → st.cards[p]? = some c →
      byCard st d = Except.ok (r, lv) →
      ∀ k, r.cards[k]? = (st.cards[k]?).map (fun (it : Item) =>
        { it with active := decide (k = p), current := decide (k = p) })) := by
  refine ⟨?_, ?_, ?_, updateHierarchyData_group_groups,
    fun st item => ⟨updateHierarchyData_set_groups st item, updateHierarchyData_set_sets st item⟩,
    fun st d r lv p c hn hdp hgc h k => byCard_cards_getElem hn hdp hgc h k⟩
  · intro st item ci si gi hph hci hsi hgi
    rw [updateHierarchyData_field_eq st item hph hci hsi hgi]
    exact ⟨fun k => setPairIdx_getElem st.groups gi.toNat k,
      fun k => setPairIdx_getElem st.sets si.toNat k,
      fun k => setPairIdx_getElem st.cards ci.toNat k, rfl, rfl⟩
  · intro st item ci si gidx hph hci hsi
    rw [updateHierarchyData_group_eq st item hph hci hsi]
    exact ⟨fun k => setPairIdx_getElem st.sets si.toNat k,
      fun k => setPairIdx_getElem st.cards ci.toNat k, rfl, rfl⟩
  · intro st item ci sidx gidx hph hci
    rw [updateHierarchyData_set_eq st item hph hci]
    exact ⟨fun k => setPairIdx_getElem st.cards ci.toNat k, rfl, rfl⟩

/-- C6 witness: concrete upward sync of field 11 (group level), of group 7
(set level), and of set 5 (card level) in the field-mode state, plus the
positional card configuration of the concrete card move. -/
theorem C6_upward_hierarchy_sync_witness :
    (updateHierarchyData regsFieldMode
        ⟨Level.field, ⟨11, false, false, ⟨some 0, some 0, some 0⟩⟩⟩).groups[0]? =
      (regsFieldMode.groups[0]?).map (fun (it : Item) =>
        { it with active := decide ((0 : Nat) = (0 : Int).toNat),
                  current := decide ((0 : Nat) = (0 : Int).toNat) }) ∧
    (updateHierarchyData regsFieldMode
        ⟨Level.group, ⟨7, false, false, ⟨some 0, some 0, none⟩⟩⟩).sets[0]? =
      (regsFieldMode.sets[0]?).map (fun (it : Item) =>
        { it with active := decide ((0 : Nat) = (0 : Int).toNat),
                  current := decide ((0 : Nat) = (0 : Int).toNat) }) ∧
    (updateHierarchyData regsFieldMode
        ⟨Level.set, ⟨5, false, false, ⟨some 0, none, none⟩⟩⟩).cards[0]? =
      (regsFieldMode.cards[0]?).map (fun (it : Item) =>
        { it with active := decide ((0 : Nat) = (0 : Int).toNat),
                  current := decide ((0 : Nat) = (0 : Int).toNat) }) ∧
    regsTwoCardsRes.cards[1]? = (regsTwoCards.cards[1]?).map (fun (it : Item) =>
      { it with active := decide ((1 : Nat) = 1), current := decide ((1 : Nat) = 1) }) :=
  ⟨(C6_upward_hierarchy_sync.1 regsFieldMode ⟨11, false, false, ⟨some 0, some 0, some 0⟩⟩
      0 0 0 rfl (by decide) (by decide) (by decide)).1 0,
   (C6_upward_hierarchy_sync.2.1 regsFieldMode ⟨7, false, false, ⟨some 0, some 0, none⟩⟩
      0 0 none rfl (by decide) (by decide)).1 0,
   (C6_upward_hierarchy_sync.2.2.1 regsFieldMode ⟨5, false, false, ⟨some 0, none, none⟩⟩
      0 none none rfl (by decide)).1 0,
   C6_upward_hierarchy_sync.2.2.2.2.2 regsTwoCards Dir.next regsTwoCardsRes (some Level.card) 1
      ⟨1, false, false, phNone⟩ (by unfold idsNodup; decide) (by decide) (by decide) rfl 1⟩

/-- C7 counterexample: the concrete card move activates two fields (ids 10
and 11); the claim demands the first input of EACH active field be current,
but input 21 — the first (and only) input of active field 11 — ends active
and NOT current. -/
theorem C7_cex_second_field_input_not_current :
    handleMove ⟨regsTwoCards, "byCard", true⟩ MoveDir.next =
      Except.ok (regsTwoCardsRes, [Ev.commit]) ∧
    (∃ f ∈ regsTwoCardsRes.fields, f.id = 11 ∧ f.active = true) ∧
    (∃ i ∈ regsTwoCardsRes.inputs, i.fieldId = 11 ∧ i.active = true ∧ i.current = false) ∧
    (∀ i ∈ regsTwoCardsRes.inputs, i.fieldId = 11 → i.current = false) := by
  refine ⟨rfl, ?_, ?_, ?_⟩ <;> decide

/-- C7 amended: on every committed move the Input registry is cleared and
re-activated so that exactly the inputs whose field is in the active Field
set are active; at most one input is current — the first input (in document
order) of the FIRST active field; inputs of other active fields are active
but not current. -/
theorem C7_amended_input_reactivation :
    ∀ (st : FormState) (d : MoveDir) (r : Registries) (evs : List Ev),
      handleMove st d = Except.ok (r, evs) → Ev.commit ∈ evs →
      (∀ k, r.inputs[k]? = (st.regs.inputs[k]?).map (fun (i : InputItem) =>
        { i with
          active := (getActiveFields r.fields).any (fun f => decide (i.fieldId = f.id)),
          current :=
            match getActiveFields r.fields with
            | [] => false
            | f0 :: _ => decide (i.fieldId = f0.id) &&
                (st.regs.inputs.take k).all (fun j => decide (j.fieldId ≠ f0.id)) })) ∧
      r.inputs.countP (fun i => i.current) ≤ 1 := by
  intro st d r evs h hcm
  obtain ⟨st2, e, hin, hf, hi⟩ := handleMove_commit_shape h hcm
  constructor
  · intro k
    rw [hi, setChildrenActive_inputs_getElem, hin, ← hf]
  · rw [hi]
    exact (levelInvInputs_setChildrenActive st2 e).1

/-- C7 amended witness: the characterisation evaluated at input 21 of the
concrete card move, plus the at-most-one-current bound. -/
theorem C7_amended_input_reactivation_witness :
    regsTwoCardsRes.inputs[1]? = (regsTwoCards.inputs[1]?).map (fun (i : InputItem) =>
      { i with
        active := (getActiveFields regsTwoCardsRes.fields).any
          (fun f => decide (i.fieldId = f.id)),
        current :=
          match getActiveFields regsTwoCardsRes.fields with
          | [] => false
          | f0 :: _ => decide (i.fieldId = f0.id) &&
              (regsTwoCards.inputs.take 1).all (fun j => decide (j.fieldId ≠ f0.id)) }) ∧
    regsTwoCardsRes.inputs.countP (fun i => i.current) ≤ 1 := by
  have h := C7_amended_input_reactivation ⟨regsTwoCards, "byCard", true⟩ MoveDir.next
    regsTwoCardsRes [Ev.commit] rfl (by decide)
  exact ⟨h.1 1, h.2⟩

end Motif
